import Mathlib

/-!
Verification development for the fantasy-trader settlement engine.

The TypeScript subsystem under `src/lib/game` is embedded shallowly:

* JavaScript `Date` values become integers counting milliseconds since the
  Unix epoch; a calendar date is its UTC-midnight timestamp.
* Database tables become explicit lists carried in environment structures;
  drizzle queries (`where`/`orderBy`/`findFirst`) become list filters, sorts
  and minimum/maximum picks over those lists.
* JavaScript `Map` and `Set` become insertion-ordered association lists and
  duplicate-free lists with the same update semantics.
* JavaScript numbers used for prices and scores become rationals; integer
  quantities (bids, budgets, tier costs) stay integers.
* The UK bank-holiday key set (`uk-holidays.ts`, a fixed data table) is a
  parameter `holiday : Int → Bool`, and `isMarketOpen` (a local-time
  window on the wall clock) enters the environments as an already-evaluated
  boolean.
-/

namespace FantasyTrader

/-- Milliseconds per UTC day. Timestamps and dates are plain `Int`
milliseconds since the Unix epoch throughout. -/
def msPerDay : Int := 86400000

/-- Mirrors `getUtcDayStart` (swaps.ts) and the `fromDateKey(toDateKey(d))`
normalisation used throughout: truncate a timestamp to the UTC midnight of
its day. -/
def getUtcDayStart (t : Int) : Int := msPerDay * (t.fdiv msPerDay)

/-- Mirrors `getUtcDayEnd` (swaps.ts). -/
def getUtcDayEnd (dayStart : Int) : Int := dayStart + msPerDay - 1

/-- Mirrors `Date.prototype.getUTCDay` (0 = Sunday); the Unix epoch fell on
a Thursday (= 4). -/
def getUTCDay (t : Int) : Int := (t.fdiv msPerDay + 4).emod 7

/-- Mirrors `getUtcWeekStart` (swaps.ts): the UTC Monday starting the
timestamp's week. -/
def getUtcWeekStart (t : Int) : Int :=
  getUtcDayStart t - (getUTCDay (getUtcDayStart t) + 6).emod 7 * msPerDay

/-- One row of the `trading_calendar` table. The prev/next link columns are
written by `populateCalendar` but never read by the operations modelled
here, so they are omitted. -/
structure CalendarEntry where
  date : Int
  isTradingDay : Bool
deriving DecidableEq

/-- Calendar context: the UK bank-holiday set as a predicate on UTC-midnight
timestamps, plus the persisted `trading_calendar` rows. -/
structure CalendarCtx where
  holiday : Int → Bool
  table : List CalendarEntry

/-- Mirrors `isTradingDayDate` (calendar.ts): not a weekend, not a UK bank
holiday. -/
def isTradingDayDate (cal : CalendarCtx) (t : Int) : Bool :=
  !(getUTCDay t == 0 || getUTCDay t == 6) && !cal.holiday (getUtcDayStart t)

/-- Drizzle `findFirst` with `orderBy asc(date)` over an already-filtered row
list: the row with the smallest date. -/
def firstByDateAsc (rows : List CalendarEntry) : Option CalendarEntry :=
  rows.foldl (fun acc e =>
    match acc with
    | none => some e
    | some a => if e.date < a.date then some e else acc) none

/-- Drizzle `findFirst` with `orderBy desc(date)` over an already-filtered
row list: the row with the largest date. -/
def firstByDateDesc (rows : List CalendarEntry) : Option CalendarEntry :=
  rows.foldl (fun acc e =>
    match acc with
    | none => some e
    | some a => if e.date > a.date then some e else acc) none

/-- The pure-rule fallback loop of `getNextTradingDay` (calendar.ts): scan up
to 14 days forward starting at the day itself, else return the day. -/
def getNextFallback (cal : CalendarCtx) (key : Int) : Int :=
  match (List.range 14).find? (fun (i : Nat) =>
      isTradingDayDate cal (key + (i : Int) * msPerDay)) with
  | some i => key + (i : Int) * msPerDay
  | none => key

/-- The pure-rule fallback loop of `getPrevTradingDay` (calendar.ts): scan up
to 14 days backwards starting at the previous day, else return the previous
day. -/
def getPrevFallback (cal : CalendarCtx) (key : Int) : Int :=
  match (List.range 14).find? (fun (i : Nat) =>
      isTradingDayDate cal (key - ((i : Int) + 1) * msPerDay)) with
  | some i => key - ((i : Int) + 1) * msPerDay
  | none => key - msPerDay

/-- Mirrors `getNextTradingDay` (calendar.ts): the first stored trading-day
row on/after the day; if the table has no answer, the pure-rule fallback. -/
def getNextTradingDay (cal : CalendarCtx) (t : Int) : Int :=
  match firstByDateAsc (cal.table.filter fun e =>
      decide (getUtcDayStart t ≤ e.date) && e.isTradingDay) with
  | some row => row.date
  | none => getNextFallback cal (getUtcDayStart t)

/-- Mirrors `getPrevTradingDay` (calendar.ts): the latest stored trading-day
row within 14 days up to the day, accepted only if strictly earlier than the
day; otherwise the pure-rule fallback. -/
def getPrevTradingDay (cal : CalendarCtx) (t : Int) : Int :=
  match firstByDateDesc (cal.table.filter fun e =>
      decide (getUtcDayStart t - 14 * msPerDay ≤ e.date) &&
        decide (e.date ≤ getUtcDayStart t) && e.isTradingDay) with
  | some row =>
    if row.date < getUtcDayStart t then row.date
    else getPrevFallback cal (getUtcDayStart t)
  | none => getPrevFallback cal (getUtcDayStart t)

/-- Mirrors `isTradingDay` (calendar.ts): the stored flag for the day if a
row exists, else the pure weekday/holiday rule. -/
def isTradingDay (cal : CalendarCtx) (t : Int) : Bool :=
  match cal.table.find? (fun e => e.date == getUtcDayStart t) with
  | some row => row.isTradingDay
  | none => isTradingDayDate cal t

/-- Mirrors `getNextEffectiveDate` (swaps.ts): the next trading day on/after
the day strictly after the submission day. Both direct swaps and waiver
claims receive this effective date. -/
def getNextEffectiveDate (cal : CalendarCtx) (submittedAt : Int) : Int :=
  getNextTradingDay cal (getUtcDayStart submittedAt + msPerDay)

/-- Mirrors the effective-date computation of `proposeTrade` (trades module):
`getNextTradingDay(proposedAt)`, with no day added first. -/
def tradeEffectiveDate (cal : CalendarCtx) (proposedAt : Int) : Int :=
  getNextTradingDay cal proposedAt

lemma msPerDay_pos : (0 : Int) < msPerDay := by norm_num [msPerDay]

lemma getUtcDayStart_le (t : Int) : getUtcDayStart t ≤ t := by
  unfold getUtcDayStart msPerDay
  rw [Int.fdiv_eq_ediv _ (by norm_num)]
  have h1 := Int.emod_nonneg t (by norm_num : (86400000 : Int) ≠ 0)
  have h2 := Int.ediv_add_emod t 86400000
  omega

lemma getUtcDayStart_mul (k : Int) : getUtcDayStart (msPerDay * k) = msPerDay * k := by
  unfold getUtcDayStart
  rw [Int.mul_fdiv_cancel_left _ (ne_of_gt msPerDay_pos)]

/-- Auxiliary: the min/max row pickers only return rows of their input. -/
lemma foldl_pick_mem {f : Option CalendarEntry → CalendarEntry → Option CalendarEntry}
    (hf : ∀ acc e, f acc e = acc ∨ f acc e = some e)
    (rows : List CalendarEntry) (acc : Option CalendarEntry) (e : CalendarEntry)
    (h : rows.foldl f acc = some e) : e ∈ rows ∨ acc = some e := by
  induction rows generalizing acc with
  | nil => exact Or.inr h
  | cons r rest ih =>
    rcases ih (f acc r) h with hmem | hacc
    · exact Or.inl (List.mem_cons_of_mem _ hmem)
    · rcases hf acc r with h1 | h2
      · exact Or.inr (h1 ▸ hacc)
      · rw [h2] at hacc
        injection hacc with h3
        exact Or.inl (by rw [← h3]; exact List.mem_cons_self r rest)

lemma firstByDateAsc_mem {rows : List CalendarEntry} {e : CalendarEntry}
    (h : firstByDateAsc rows = some e) : e ∈ rows := by
  unfold firstByDateAsc at h
  have := foldl_pick_mem (f := fun acc e =>
    match acc with
    | none => some e
    | some a => if e.date < a.date then some e else acc)
    (by
      intro acc e
      cases acc with
      | none => exact Or.inr rfl
      | some a => by_cases hlt : e.date < a.date <;> simp [hlt]) rows none e h
  rcases this with hmem | hacc
  · exact hmem
  · simp at hacc

lemma firstByDateDesc_mem {rows : List CalendarEntry} {e : CalendarEntry}
    (h : firstByDateDesc rows = some e) : e ∈ rows := by
  unfold firstByDateDesc at h
  have := foldl_pick_mem (f := fun acc e =>
    match acc with
    | none => some e
    | some a => if e.date > a.date then some e else acc)
    (by
      intro acc e
      cases acc with
      | none => exact Or.inr rfl
      | some a => by_cases hlt : e.date > a.date <;> simp [hlt]) rows none e h
  rcases this with hmem | hacc
  · exact hmem
  · simp at hacc

lemma getNextFallback_ge (cal : CalendarCtx) (key : Int) :
    key ≤ getNextFallback cal key := by
  unfold getNextFallback
  split
  · rename_i i _
    simp only [msPerDay]
    omega
  · exact le_refl key

lemma getPrevFallback_lt (cal : CalendarCtx) (key : Int) :
    getPrevFallback cal key < key := by
  unfold getPrevFallback
  split
  · rename_i i _
    simp only [msPerDay]
    omega
  · have := msPerDay_pos
    omega

lemma getNextTradingDay_ge (cal : CalendarCtx) (t : Int) :
    getUtcDayStart t ≤ getNextTradingDay cal t := by
  unfold getNextTradingDay
  split
  · rename_i row hrow
    have hmem := firstByDateAsc_mem hrow
    have h2 := (List.mem_filter.mp hmem).2
    simp only [Bool.and_eq_true, decide_eq_true_eq] at h2
    exact h2.1
  · exact getNextFallback_ge cal (getUtcDayStart t)

lemma getPrevTradingDay_lt (cal : CalendarCtx) (t : Int) :
    getPrevTradingDay cal t < getUtcDayStart t := by
  unfold getPrevTradingDay
  split
  · rename_i row hrow
    by_cases hlt : row.date < getUtcDayStart t
    · simp [hlt]
    · simp only [hlt, if_false]
      exact getPrevFallback_lt cal (getUtcDayStart t)
  · exact getPrevFallback_lt cal (getUtcDayStart t)

/-- C9: for every calendar state (holiday rule and stored table, including an
empty or unpopulated table) and every input date, `getPrevTradingDay` returns
a value — the function is total by construction, via the weekday/holiday
fallback — and that value is strictly earlier than the input date: strictly
before the input day's UTC midnight, hence strictly before the input
instant itself. -/
theorem claim_C9_prevTradingDay_strictly_earlier (cal : CalendarCtx) (t : Int) :
    getPrevTradingDay cal t < getUtcDayStart t ∧ getPrevTradingDay cal t < t :=
  ⟨getPrevTradingDay_lt cal t,
   lt_of_lt_of_le (getPrevTradingDay_lt cal t) (getUtcDayStart_le t)⟩

/-- A calendar with no populated table and no holidays, used for concrete
evaluations. -/
def emptyCal : CalendarCtx := ⟨fun _ => false, []⟩

/-- C2 counterexample: a trade proposed at 20:00 UTC on Monday 1970-01-05 (a
trading day; the market is closed in the evening) receives that very same UTC
day as its effective date, so a trade proposal's effective date is not always
strictly later than its submission day. -/
theorem claim_C2_counterexample :
    tradeEffectiveDate emptyCal (4 * msPerDay + 72000000) =
      getUtcDayStart (4 * msPerDay + 72000000) ∧
    ¬ (getUtcDayStart (4 * msPerDay + 72000000) <
        tradeEffectiveDate emptyCal (4 * msPerDay + 72000000)) := by
  exact ⟨by decide, by decide⟩

/-- C2 (amended): the effective date computed for swap submissions and waiver
claims (`getNextEffectiveDate`) is strictly later than the submission's UTC
day; the effective date computed for trade proposals is the next trading day
on/after the submission instant, which is never earlier than the submission
day but can fall on the submission day itself. -/
theorem claim_C2_effective_dates (cal : CalendarCtx) (t : Int) :
    getUtcDayStart t < getNextEffectiveDate cal t ∧
    getUtcDayStart t ≤ tradeEffectiveDate cal t := by
  constructor
  · unfold getNextEffectiveDate
    have h1 := getNextTradingDay_ge cal (getUtcDayStart t + msPerDay)
    have h2 : getUtcDayStart (getUtcDayStart t + msPerDay) =
        getUtcDayStart t + msPerDay := by
      have h3 : getUtcDayStart t + msPerDay = msPerDay * (t.fdiv msPerDay + 1) := by
        unfold getUtcDayStart; ring
      rw [h3, getUtcDayStart_mul]
    rw [h2] at h1
    have := msPerDay_pos
    omega
  · exact getNextTradingDay_ge cal t

/-- JavaScript `Map.set` on an insertion-ordered association list: update
the value in place when the key exists, otherwise append at the end. -/
def assocSet {α : Type} (k : String) (v : α) : List (String × α) → List (String × α)
  | [] => [(k, v)]
  | (k₂, v₂) :: rest => if k₂ = k then (k, v) :: rest else (k₂, v₂) :: assocSet k v rest

/-- JavaScript `Map.delete`. -/
def assocDelete {α : Type} (k : String) : List (String × α) → List (String × α)
  | [] => []
  | (k₂, v₂) :: rest => if k₂ = k then rest else (k₂, v₂) :: assocDelete k rest

/-- JavaScript `Map.get`. -/
def assocGet {α : Type} (k : String) : List (String × α) → Option α
  | [] => none
  | (k₂, v) :: rest => if k₂ = k then some v else assocGet k rest

/-- JavaScript `Set.add` on an insertion-ordered duplicate-free list. -/
def setAdd (x : String) (l : List String) : List String :=
  if x ∈ l then l else l ++ [x]

/-- JavaScript `Set.delete`. -/
def setDelete (x : String) (l : List String) : List String := l.erase x

/-- Roster move kinds (`RosterMoveType` in types/game.ts). -/
inductive MoveType
  | DRAFT
  | ADD
  | DROP
  | TRADE
deriving DecidableEq

/-- Trade leg direction recorded in a TRADE move's metadata by
`acceptTrade`. -/
inductive TradeDirection
  | IN
  | OUT
deriving DecidableEq

/-- One `roster_moves` row. The free-form metadata is reduced to the one
field relevant here: the trade direction written by `acceptTrade`. -/
structure RosterMove where
  id : Nat
  teamId : String
  type : MoveType
  symbol : String
  effectiveDate : Int
  direction : Option TradeDirection
  createdAt : Int
deriving DecidableEq

/-- The SQL replay order used by `getHoldingsAtDate` and the ownership
rebuilds: ascending (effectiveDate, createdAt, id). -/
def moveLE (a b : RosterMove) : Prop :=
  a.effectiveDate < b.effectiveDate ∨
    (a.effectiveDate = b.effectiveDate ∧
      (a.createdAt < b.createdAt ∨ (a.createdAt = b.createdAt ∧ a.id ≤ b.id)))

instance : DecidableRel moveLE := fun a b => by
  unfold moveLE
  infer_instance

/-- Sort roster moves in replay order. -/
def sortMoves (moves : List RosterMove) : List RosterMove :=
  List.insertionSort moveLE moves

/-- One `instruments` row of the relevant season. -/
structure Instrument where
  symbol : String
  tier : Int
  tierCost : Int
deriving DecidableEq

/-- Derived holding (holdings.ts `Holding`). -/
structure Holding where
  symbol : String
  addedDate : Int
  tier : Int
  tierCost : Int
deriving DecidableEq

/-- The replay fold of `getHoldingsAtDate` (holdings.ts): a `DROP` deletes
the symbol, every other kind (DRAFT/ADD/TRADE, regardless of metadata)
inserts it with the move's effective date. -/
def replayMoves (ordered : List RosterMove) : List (String × Int) :=
  ordered.foldl (fun acc m =>
    match m.type with
    | MoveType.DROP => assocDelete m.symbol acc
    | _ => assocSet m.symbol m.effectiveDate acc) ([] : List (String × Int))

/-- The instrument join of `getHoldingsAtDate`: unknown symbols are dropped
silently. -/
def joinInstruments (instrs : List Instrument) (entries : List (String × Int)) :
    List Holding :=
  entries.filterMap fun entry =>
    match instrs.find? (fun i => i.symbol == entry.1) with
    | none => none
    | some i => some ⟨entry.1, entry.2, i.tier, i.tierCost⟩

/-- Mirrors `getHoldingsAtDate` (holdings.ts): replay the team's moves with
effective date ≤ the target date in (effectiveDate, createdAt, id) order,
then join against the season's instruments. The team→season join of the
source is implicit: `instrs` is the team's season's instrument set. -/
def getHoldingsAtDate (moves : List RosterMove) (instrs : List Instrument)
    (teamId : String) (date : Int) : List Holding :=
  joinInstruments instrs (replayMoves (sortMoves (moves.filter fun m =>
    m.teamId == teamId && decide (m.effectiveDate ≤ date))))

/-- Per-tier counts (types/game.ts `TierCounts`). -/
structure TierCounts where
  t1 : Nat
  t2 : Nat
  t3 : Nat
  t4 : Nat
  t5 : Nat
deriving DecidableEq

/-- Mirrors `emptyTierCounts` (types/game.ts). -/
def emptyTierCounts : TierCounts := ⟨0, 0, 0, 0, 0⟩

/-- The per-holding tier-count update of `validateRoster`: tiers outside
1..5 are not counted. -/
def bumpTier (tc : TierCounts) (tier : Int) : TierCounts :=
  if 1 ≤ tier ∧ tier ≤ 5 then
    if tier = 1 then { tc with t1 := tc.t1 + 1 }
    else if tier = 2 then { tc with t2 := tc.t2 + 1 }
    else if tier = 3 then { tc with t3 := tc.t3 + 1 }
    else if tier = 4 then { tc with t4 := tc.t4 + 1 }
    else { tc with t5 := tc.t5 + 1 }
  else tc

/-- Result shape of `validateRoster` (holdings.ts `RosterValidation`). -/
structure RosterValidation where
  isValid : Bool
  errors : List String
  holdingCount : Nat
  totalCost : Int
  tierCounts : TierCounts
deriving DecidableEq

/-- Mirrors `validateRoster` (holdings.ts): errors when the roster size is
not exactly 8 (`ROSTER_SIZE`), when any tier 1–5 has no holding, and when
the total tier cost exceeds the budget; valid iff no errors. -/
def validateRoster (holdings : List Holding) (budget : Int) : RosterValidation :=
  let tierCounts := holdings.foldl (fun tc h => bumpTier tc h.tier) emptyTierCounts
  let totalCost := holdings.foldl (fun s h => s + h.tierCost) 0
  let errors :=
    (if holdings.length ≠ 8 then ["Roster must have exactly 8 holdings"] else []) ++
    (if tierCounts.t1 < 1 then ["Roster must include at least one Tier 1 holding"] else []) ++
    (if tierCounts.t2 < 1 then ["Roster must include at least one Tier 2 holding"] else []) ++
    (if tierCounts.t3 < 1 then ["Roster must include at least one Tier 3 holding"] else []) ++
    (if tierCounts.t4 < 1 then ["Roster must include at least one Tier 4 holding"] else []) ++
    (if tierCounts.t5 < 1 then ["Roster must include at least one Tier 5 holding"] else []) ++
    (if budget < totalCost then ["Roster cost exceeds budget"] else [])
  { isValid := errors.length == 0
    errors := errors
    holdingCount := holdings.length
    totalCost := totalCost
    tierCounts := tierCounts }

/-- Mirrors `isFirstScoringDay` (holdings.ts): the two dates share a UTC day
key. -/
def isFirstScoringDay (addedDate scoringDate : Int) : Bool :=
  getUtcDayStart addedDate == getUtcDayStart scoringDate

lemma tierCounts_foldl (l : List Holding) (tc : TierCounts) :
    l.foldl (fun acc h => bumpTier acc h.tier) tc =
      ⟨tc.t1 + (l.filter fun h => h.tier == 1).length,
       tc.t2 + (l.filter fun h => h.tier == 2).length,
       tc.t3 + (l.filter fun h => h.tier == 3).length,
       tc.t4 + (l.filter fun h => h.tier == 4).length,
       tc.t5 + (l.filter fun h => h.tier == 5).length⟩ := by
  induction l generalizing tc with
  | nil => simp
  | cons h rest ih =>
    rw [List.foldl_cons, ih]
    unfold bumpTier
    by_cases h1 : h.tier = 1
    · simp [List.filter_cons, h1, TierCounts.mk.injEq]
      omega
    by_cases h2 : h.tier = 2
    · simp [List.filter_cons, h1, h2, TierCounts.mk.injEq]
      omega
    by_cases h3 : h.tier = 3
    · simp [List.filter_cons, h1, h2, h3, TierCounts.mk.injEq]
      omega
    by_cases h4 : h.tier = 4
    · simp [List.filter_cons, h1, h2, h3, h4, TierCounts.mk.injEq]
      omega
    by_cases h5 : h.tier = 5
    · simp [List.filter_cons, h1, h2, h3, h4, h5, TierCounts.mk.injEq]
      omega
    have hout : ¬ (1 ≤ h.tier ∧ h.tier ≤ 5) := by omega
    simp [List.filter_cons, h1, h2, h3, h4, h5, hout]

lemma totalCost_foldl (l : List Holding) (s : Int) :
    l.foldl (fun acc h => acc + h.tierCost) s = s + (l.map fun h => h.tierCost).sum := by
  induction l generalizing s with
  | nil => simp
  | cons h rest ih =>
    rw [List.foldl_cons, ih]
    simp
    ring

lemma if_list_eq_nil (c : Prop) [Decidable c] (s : String) :
    ((if c then [s] else []) = ([] : List String)) ↔ ¬ c := by
  split
  · simp [*]
  · simp [*]

/-- The spec's example roster: costs 20,16,12,8,4,8,4,12 with tiers
1,2,3,4,5,4,5,3. -/
def exampleRoster : List Holding :=
  [⟨"A", 0, 1, 20⟩, ⟨"B", 0, 2, 16⟩, ⟨"C", 0, 3, 12⟩, ⟨"D", 0, 4, 8⟩,
   ⟨"E", 0, 5, 4⟩, ⟨"F", 0, 4, 8⟩, ⟨"G", 0, 5, 4⟩, ⟨"H", 0, 3, 12⟩]

/-- C6: `validateRoster` accepts exactly the rosters that have 8 holdings,
at least one holding in each of tiers 1–5, and total tier cost at most the
budget; in particular the spec's example roster is valid against
budget 100. -/
theorem claim_C6_validateRoster (holdings : List Holding) (budget : Int) :
    ((validateRoster holdings budget).isValid = true ↔
      (holdings.length = 8 ∧
       1 ≤ (holdings.filter fun h => h.tier == 1).length ∧
       1 ≤ (holdings.filter fun h => h.tier == 2).length ∧
       1 ≤ (holdings.filter fun h => h.tier == 3).length ∧
       1 ≤ (holdings.filter fun h => h.tier == 4).length ∧
       1 ≤ (holdings.filter fun h => h.tier == 5).length ∧
       (holdings.map fun h => h.tierCost).sum ≤ budget)) ∧
    (validateRoster exampleRoster 100).isValid = true := by
  refine ⟨?_, by decide⟩
  unfold validateRoster
  simp only [tierCounts_foldl, totalCost_foldl, emptyTierCounts]
  simp only [beq_iff_eq, List.length_eq_zero, List.append_eq_nil, if_list_eq_nil]
  constructor
  · intro hcond
    omega
  · intro hcond
    omega

/-- Scoring configuration (types/game.ts `ScoringConfig`); the source merges
a partial override into defaults, modelled by passing the already-merged
configuration. -/
structure ScoringConfig where
  multiplier : ℚ
  firstDayPenalty : ℚ
deriving DecidableEq

/-- Defaults from types/game.ts: multiplier 10, first-day penalty 0.5. -/
def defaultScoringConfig : ScoringConfig := ⟨10, 1 / 2⟩

/-- JavaScript `Math.round`: the floor of x + 1/2, also for negative x. -/
def jsRound (q : ℚ) : Int := (q + 1 / 2).num.fdiv (q + 1 / 2).den

/-- Mirrors `round4` (scoring.ts): `Math.round(x * 10000) / 10000`. -/
def round4 (q : ℚ) : ℚ := (jsRound (q * 10000) : ℚ) / 10000

/-- The per-symbol points of `calculateTeamDay` for a holding whose prices
are both present and whose previous close is nonzero: the daily return times
100 times the multiplier, dampened on the first scoring day, rounded to 4
decimal places. -/
def symbolScore (cfg : ScoringConfig) (date : Int) (h : Holding)
    (today previous : ℚ) : ℚ :=
  let dailyReturn := (today - previous) / previous
  let base := dailyReturn * 100 * cfg.multiplier
  round4 (if isFirstScoringDay h.addedDate date then base * cfg.firstDayPenalty else base)

/-- The missing-data test of `calculateTeamDay`: a price is absent, or the
previous close is zero. -/
def priceMissing (todayPrice previousPrice : Option ℚ) : Bool :=
  todayPrice.isNone || previousPrice.isNone || previousPrice == some 0

/-- One iteration of the scoring loop of `calculateTeamDay` (scoring.ts):
a missing symbol contributes a zero breakdown entry and is pushed onto the
missing list; otherwise its rounded points are added to the running total
and recorded in the breakdown. -/
def calcStep (cfg : ScoringConfig) (date : Int)
    (todayPrices previousPrices : String → Option ℚ)
    (acc : ℚ × List (String × ℚ) × List String) (h : Holding) :
    ℚ × List (String × ℚ) × List String :=
  if priceMissing (todayPrices h.symbol) (previousPrices h.symbol) then
    (acc.1, assocSet h.symbol 0 acc.2.1, acc.2.2 ++ [h.symbol])
  else
    let pts := symbolScore cfg date h ((todayPrices h.symbol).getD 0)
      ((previousPrices h.symbol).getD 0)
    (acc.1 + pts, assocSet h.symbol pts acc.2.1, acc.2.2)

/-- The scoring loop of `calculateTeamDay`: fold over the holdings
accumulating total points, the per-symbol breakdown record and the
missing-symbol list. -/
def calcEntries (cfg : ScoringConfig) (date : Int)
    (todayPrices previousPrices : String → Option ℚ) (l : List Holding)
    (acc : ℚ × List (String × ℚ) × List String) :
    ℚ × List (String × ℚ) × List String :=
  l.foldl (calcStep cfg date todayPrices previousPrices) acc

/-- Result of `calculateTeamDay` (scoring.ts `DayScore`); the breakdown
record is an insertion-ordered association list. -/
structure DayScore where
  teamId : String
  date : Int
  points : ℚ
  breakdown : List (String × ℚ)
  missingSymbols : List String
  isTradingDay : Bool
deriving DecidableEq

/-- One cached `team_day_scores` row. -/
structure CacheRow where
  teamId : String
  date : Int
  points : ℚ
  breakdown : List (String × ℚ)
  computedAt : Int
deriving DecidableEq

/-- The scoring environment: the source facts (calendar, roster-move log,
instrument set, price ledger) plus the derived score cache and the clock
used only for `computedAt` stamps. -/
structure ScoringEnv where
  calendar : CalendarCtx
  moves : List RosterMove
  instruments : List Instrument
  prices : Int → String → Option ℚ
  cache : List CacheRow
  now : Int

/-- Mirrors `calculateTeamDay` (scoring.ts): zero score with a flag on
non-trading days; otherwise score the reconstructed holdings against the
closes at the date and the previous trading day. Reads only the source
facts, never the cache or the clock. -/
def calculateTeamDay (env : ScoringEnv) (teamId : String) (date : Int)
    (cfg : ScoringConfig) : DayScore :=
  if ¬ isTradingDay env.calendar date then
    ⟨teamId, date, 0, [], [], false⟩
  else
    let holdings := getHoldingsAtDate env.moves env.instruments teamId date
    if holdings.isEmpty then ⟨teamId, date, 0, [], [], true⟩
    else
      let previousTradingDate := getPrevTradingDay env.calendar date
      let res := calcEntries cfg date (env.prices date)
        (env.prices previousTradingDate) holdings (0, [], [])
      ⟨teamId, date, round4 res.1, res.2.1, res.2.2, true⟩

/-- Mirrors `getCachedTeamDayScore` (scoring.ts): a cache hit is returned
with an empty missing-symbol list and `isTradingDay := true`, whatever the
original computation recorded. -/
def getCachedTeamDayScore (env : ScoringEnv) (teamId : String) (date : Int) :
    Option DayScore :=
  match env.cache.find? (fun r => r.teamId == teamId && r.date == date) with
  | none => none
  | some row => some ⟨teamId, date, row.points, row.breakdown, [], true⟩

/-- Upsert keyed on (teamId, date), mirroring `onConflictDoUpdate`. -/
def upsertCache (row : CacheRow) : List CacheRow → List CacheRow
  | [] => [row]
  | r :: rest =>
    if r.teamId == row.teamId && r.date == row.date then row :: rest
    else r :: upsertCache row rest

/-- Mirrors `cacheTeamDayScore` (scoring.ts). -/
def cacheTeamDayScore (env : ScoringEnv) (ds : DayScore) : ScoringEnv :=
  { env with
    cache := upsertCache ⟨ds.teamId, ds.date, ds.points, ds.breakdown, env.now⟩
      env.cache }

/-- Mirrors `getOrCalculateScore` (scoring.ts): return the cached score
unless absent or a recalculation is forced; otherwise compute, upsert into
the cache, and return the fresh score together with the updated
environment. -/
def getOrCalculateScore (env : ScoringEnv) (teamId : String) (date : Int)
    (forceRecalculate : Bool) (cfg : ScoringConfig) : DayScore × ScoringEnv :=
  match if forceRecalculate then none else getCachedTeamDayScore env teamId date with
  | some cached => (cached, env)
  | none =>
    let dayScore := calculateTeamDay env teamId date cfg
    (dayScore, cacheTeamDayScore env dayScore)

/-- C8: `calculateTeamDay` is deterministic over its source facts — two
environments that agree on the calendar, the roster-move log, the instrument
set and the price ledger (but may differ in score cache and clock) produce
bit-for-bit identical results: the same total points, per-symbol breakdown
and missing-symbol list. In particular two calls over one environment agree.
-/
theorem claim_C8_dayScore_deterministic (env₁ env₂ : ScoringEnv)
    (teamId : String) (date : Int) (cfg : ScoringConfig)
    (hcal : env₁.calendar = env₂.calendar) (hmoves : env₁.moves = env₂.moves)
    (hinstr : env₁.instruments = env₂.instruments)
    (hprices : env₁.prices = env₂.prices) :
    calculateTeamDay env₁ teamId date cfg = calculateTeamDay env₂ teamId date cfg := by
  obtain ⟨c₁, m₁, i₁, p₁, ca₁, n₁⟩ := env₁
  obtain ⟨c₂, m₂, i₂, p₂, ca₂, n₂⟩ := env₂
  simp only at hcal hmoves hinstr hprices
  subst hcal hmoves hinstr hprices
  rfl

/-- A minimal scoring environment for concrete evaluations. -/
def scoringEnvA : ScoringEnv := ⟨emptyCal, [], [], fun _ _ => none, [], 0⟩

/-- The same source facts as `scoringEnvA` with a different cache and
clock. -/
def scoringEnvB : ScoringEnv :=
  { scoringEnvA with cache := [⟨"T", 0, 0, [], 0⟩], now := 99 }

/-- Witness for C8: concrete environments differing only in cache and clock
yield identical day scores. -/
theorem claim_C8_witness :
    calculateTeamDay scoringEnvA "T" (5 * msPerDay) defaultScoringConfig =
      calculateTeamDay scoringEnvB "T" (5 * msPerDay) defaultScoringConfig :=
  claim_C8_dayScore_deterministic scoringEnvA scoringEnvB "T" (5 * msPerDay)
    defaultScoringConfig rfl rfl rfl rfl

/-- Keys of an association list. -/
def keys {α : Type} (m : List (String × α)) : List String := m.map Prod.fst

lemma assocGet_assocSet_same {α : Type} (k : String) (v : α)
    (m : List (String × α)) : assocGet k (assocSet k v m) = some v := by
  induction m with
  | nil => simp [assocSet, assocGet]
  | cons e rest ih =>
    obtain ⟨k₂, v₂⟩ := e
    by_cases hk : k₂ = k
    · simp [assocSet, hk, assocGet]
    · simp [assocSet, hk, assocGet, ih]

lemma assocGet_assocSet_ne {α : Type} (k k₂ : String) (v : α)
    (m : List (String × α)) (hne : k₂ ≠ k) :
    assocGet k (assocSet k₂ v m) = assocGet k m := by
  have hne2 : ¬ (k = k₂) := fun hEq => hne hEq.symm
  induction m with
  | nil => simp [assocSet, assocGet, hne]
  | cons e rest ih =>
    obtain ⟨k₃, v₃⟩ := e
    by_cases h3 : k₃ = k₂
    · subst h3
      simp [assocSet, assocGet, hne, hne2]
    · by_cases hk3 : k₃ = k
      · subst hk3
        simp [assocSet, h3, assocGet]
      · simp [assocSet, h3, assocGet, hk3, ih]

lemma mem_keys_assocSet {α : Type} (x k : String) (v : α)
    (m : List (String × α)) :
    x ∈ keys (assocSet k v m) ↔ x = k ∨ x ∈ keys m := by
  induction m with
  | nil => simp [assocSet, keys]
  | cons e rest ih =>
    obtain ⟨k₂, v₂⟩ := e
    by_cases h2 : k₂ = k
    · subst h2
      simp [assocSet, keys, List.mem_cons]
    · simp only [assocSet, if_neg h2, keys, List.map_cons, List.mem_cons] at ih ⊢
      rw [ih]
      tauto

lemma keys_assocSet_nodup {α : Type} (k : String) (v : α)
    (m : List (String × α)) (h : (keys m).Nodup) :
    (keys (assocSet k v m)).Nodup := by
  induction m with
  | nil => simp [assocSet, keys]
  | cons e rest ih =>
    obtain ⟨k₂, v₂⟩ := e
    rw [show keys ((k₂, v₂) :: rest) = k₂ :: keys rest from rfl,
      List.nodup_cons] at h
    obtain ⟨hnotin, hrest⟩ := h
    by_cases h2 : k₂ = k
    · subst h2
      rw [show assocSet k₂ v ((k₂, v₂) :: rest) = (k₂, v) :: rest from by
          simp [assocSet],
        show keys ((k₂, v) :: rest) = k₂ :: keys rest from rfl, List.nodup_cons]
      exact ⟨hnotin, hrest⟩
    · rw [show assocSet k v ((k₂, v₂) :: rest) = (k₂, v₂) :: assocSet k v rest from by
          simp [assocSet, h2],
        show keys ((k₂, v₂) :: assocSet k v rest) = k₂ :: keys (assocSet k v rest)
          from rfl, List.nodup_cons]
      refine ⟨?_, ih hrest⟩
      intro hmem
      rcases (mem_keys_assocSet k₂ k v rest).mp hmem with h3 | h3
      · exact h2 h3
      · exact hnotin h3

lemma keys_assocDelete_sublist {α : Type} (k : String)
    (m : List (String × α)) :
    (keys (assocDelete k m)).Sublist (keys m) := by
  induction m with
  | nil => simp [assocDelete, keys]
  | cons e rest ih =>
    obtain ⟨k₂, v₂⟩ := e
    by_cases h2 : k₂ = k
    · simp only [assocDelete, if_pos h2]
      exact List.sublist_cons_self k₂ (keys rest)
    · simpa [assocDelete, h2, keys] using ih.cons₂ k₂

lemma replay_fold_keys_nodup (ms : List RosterMove) :
    ∀ acc : List (String × Int), (keys acc).Nodup →
      (keys (ms.foldl (fun acc m =>
        match m.type with
        | MoveType.DROP => assocDelete m.symbol acc
        | _ => assocSet m.symbol m.effectiveDate acc) acc)).Nodup := by
  induction ms with
  | nil =>
    intro acc h
    simpa using h
  | cons m rest ih =>
    intro acc h
    rw [List.foldl_cons]
    apply ih
    cases htype : m.type
    case DROP => exact (keys_assocDelete_sublist m.symbol acc).nodup h
    all_goals exact keys_assocSet_nodup _ _ _ h

lemma replayMoves_keys_nodup (ordered : List RosterMove) :
    (keys (replayMoves ordered)).Nodup := by
  unfold replayMoves
  exact replay_fold_keys_nodup ordered [] (by simp [keys])

lemma joinInstruments_symbols_sublist (instrs : List Instrument)
    (entries : List (String × Int)) :
    ((joinInstruments instrs entries).map fun h => h.symbol).Sublist
      (keys entries) := by
  induction entries with
  | nil => simp [joinInstruments, keys]
  | cons e rest ih =>
    unfold joinInstruments at ih ⊢
    rw [List.filterMap_cons]
    cases hfind : instrs.find? (fun i => i.symbol == e.1) with
    | none => simpa [keys] using ih.cons e.1
    | some i => simpa [keys] using ih.cons₂ e.1

lemma getHoldingsAtDate_symbols_nodup (moves : List RosterMove)
    (instrs : List Instrument) (teamId : String) (date : Int) :
    ((getHoldingsAtDate moves instrs teamId date).map fun h => h.symbol).Nodup := by
  unfold getHoldingsAtDate
  exact (joinInstruments_symbols_sublist _ _).nodup (replayMoves_keys_nodup _)

lemma calcEntries_cons (cfg : ScoringConfig) (date : Int)
    (tp pp : String → Option ℚ) (h : Holding) (rest : List Holding)
    (acc : ℚ × List (String × ℚ) × List String) :
    calcEntries cfg date tp pp (h :: rest) acc =
      calcEntries cfg date tp pp rest (calcStep cfg date tp pp acc h) := rfl

lemma calcEntries_missing_list (cfg : ScoringConfig) (date : Int)
    (tp pp : String → Option ℚ) (l : List Holding)
    (acc : ℚ × List (String × ℚ) × List String) :
    (calcEntries cfg date tp pp l acc).2.2 =
      acc.2.2 ++ (l.filter fun h =>
        priceMissing (tp h.symbol) (pp h.symbol)).map (fun h => h.symbol) := by
  induction l generalizing acc with
  | nil => simp [calcEntries]
  | cons h rest ih =>
    rw [calcEntries_cons, ih]
    by_cases hm : priceMissing (tp h.symbol) (pp h.symbol)
    · simp [calcStep, hm, List.filter_cons]
    · simp [calcStep, hm, List.filter_cons]

lemma calcEntries_get_preserve (cfg : ScoringConfig) (date : Int)
    (tp pp : String → Option ℚ) (l : List Holding)
    (acc : ℚ × List (String × ℚ) × List String) (k : String)
    (hk : ∀ h ∈ l, h.symbol ≠ k) :
    assocGet k (calcEntries cfg date tp pp l acc).2.1 = assocGet k acc.2.1 := by
  induction l generalizing acc with
  | nil => simp [calcEntries]
  | cons h rest ih =>
    have hhd : h.symbol ≠ k := hk h (List.mem_cons_self h rest)
    have hrest : ∀ h₂ ∈ rest, h₂.symbol ≠ k := fun h₂ hm =>
      hk h₂ (List.mem_cons_of_mem _ hm)
    rw [calcEntries_cons, ih _ hrest]
    by_cases hm : priceMissing (tp h.symbol) (pp h.symbol)
    · simp [calcStep, hm, assocGet_assocSet_ne _ _ _ _ hhd]
    · simp [calcStep, hm, assocGet_assocSet_ne _ _ _ _ hhd]

lemma calcEntries_get_mem (cfg : ScoringConfig) (date : Int)
    (tp pp : String → Option ℚ) (l : List Holding)
    (acc : ℚ × List (String × ℚ) × List String)
    (hnodup : (l.map fun h => h.symbol).Nodup) (h : Holding) (hmem : h ∈ l) :
    assocGet h.symbol (calcEntries cfg date tp pp l acc).2.1 =
      some (if priceMissing (tp h.symbol) (pp h.symbol) then 0
        else symbolScore cfg date h ((tp h.symbol).getD 0) ((pp h.symbol).getD 0)) := by
  induction l generalizing acc with
  | nil => cases hmem
  | cons h0 rest ih =>
    have hn := hnodup
    rw [List.map_cons, List.nodup_cons] at hn
    rcases List.mem_cons.mp hmem with heq | hmem2
    · subst heq
      have hrest : ∀ h₂ ∈ rest, h₂.symbol ≠ h.symbol := by
        intro h₂ hm2 hEq
        exact hn.1 (hEq ▸ List.mem_map_of_mem (fun x => x.symbol) hm2)
      rw [calcEntries_cons, calcEntries_get_preserve _ _ _ _ _ _ _ hrest]
      by_cases hm : priceMissing (tp h.symbol) (pp h.symbol)
      · simp [calcStep, hm, assocGet_assocSet_same]
      · simp [calcStep, hm, assocGet_assocSet_same]
    · rw [calcEntries_cons]
      exact ih _ hn.2 hmem2

/-- C7: on a trading day, a held symbol whose price data is missing — an
absent close at the scoring date or at the previous trading day, or a zero
previous close — contributes exactly 0 points via a zero breakdown entry and
is listed under the missing symbols, the computation still returns a
trading-day result, and every holding with full price data is still scored
normally. -/
theorem claim_C7_missing_prices_degrade (env : ScoringEnv) (teamId : String)
    (date : Int) (cfg : ScoringConfig) (h : Holding)
    (htrading : isTradingDay env.calendar date = true)
    (hmem : h ∈ getHoldingsAtDate env.moves env.instruments teamId date)
    (hmiss : priceMissing (env.prices date h.symbol)
      (env.prices (getPrevTradingDay env.calendar date) h.symbol) = true) :
    assocGet h.symbol (calculateTeamDay env teamId date cfg).breakdown = some 0 ∧
    h.symbol ∈ (calculateTeamDay env teamId date cfg).missingSymbols ∧
    (calculateTeamDay env teamId date cfg).isTradingDay = true ∧
    (∀ h₂ ∈ getHoldingsAtDate env.moves env.instruments teamId date,
      priceMissing (env.prices date h₂.symbol)
        (env.prices (getPrevTradingDay env.calendar date) h₂.symbol) = false →
      assocGet h₂.symbol (calculateTeamDay env teamId date cfg).breakdown =
        some (symbolScore cfg date h₂ ((env.prices date h₂.symbol).getD 0)
          ((env.prices (getPrevTradingDay env.calendar date) h₂.symbol).getD 0))) := by
  have hne : (getHoldingsAtDate env.moves env.instruments teamId date).isEmpty = false := by
    cases hl : (getHoldingsAtDate env.moves env.instruments teamId date).isEmpty
    · rfl
    · rw [List.isEmpty_iff] at hl
      rw [hl] at hmem
      cases hmem
  have hcalc : calculateTeamDay env teamId date cfg =
      ⟨teamId, date,
        round4 (calcEntries cfg date (env.prices date)
          (env.prices (getPrevTradingDay env.calendar date))
          (getHoldingsAtDate env.moves env.instruments teamId date) (0, [], [])).1,
        (calcEntries cfg date (env.prices date)
          (env.prices (getPrevTradingDay env.calendar date))
          (getHoldingsAtDate env.moves env.instruments teamId date) (0, [], [])).2.1,
        (calcEntries cfg date (env.prices date)
          (env.prices (getPrevTradingDay env.calendar date))
          (getHoldingsAtDate env.moves env.instruments teamId date) (0, [], [])).2.2,
        true⟩ := by
    unfold calculateTeamDay
    rw [htrading]
    simp [hne]
  refine ⟨?_, ?_, ?_, ?_⟩
  · rw [hcalc]
    rw [calcEntries_get_mem _ _ _ _ _ _
      (getHoldingsAtDate_symbols_nodup _ _ _ _) h hmem]
    simp [hmiss]
  · rw [hcalc]
    show h.symbol ∈ (calcEntries _ _ _ _ _ _).2.2
    rw [calcEntries_missing_list]
    simp only [List.nil_append]
    exact List.mem_map_of_mem _ (List.mem_filter.mpr ⟨hmem, hmiss⟩)
  · rw [hcalc]
  · intro h₂ hmem2 hfull
    rw [hcalc]
    show assocGet h₂.symbol (calcEntries _ _ _ _ _ _).2.1 = _
    rw [calcEntries_get_mem _ _ _ _ _ _
      (getHoldingsAtDate_symbols_nodup _ _ _ _) h₂ hmem2]
    simp [hfull]

/-- A concrete environment for the C7 witness: one drafted symbol with no
price data, on a trading Tuesday (1970-01-06). -/
def c7Env : ScoringEnv :=
  ⟨emptyCal,
   [⟨1, "T", MoveType.DRAFT, "AAA", 4 * msPerDay, none, 0⟩],
   [⟨"AAA", 1, 20⟩],
   fun _ _ => none, [], 0⟩

/-- The holding reconstructed from `c7Env`. -/
def c7Holding : Holding := ⟨"AAA", 4 * msPerDay, 1, 20⟩

/-- Witness for C7: the symbol without price data scores a zero breakdown
entry and is reported missing. -/
theorem claim_C7_witness :
    assocGet "AAA" (calculateTeamDay c7Env "T" (5 * msPerDay)
      defaultScoringConfig).breakdown = some 0 ∧
    "AAA" ∈ (calculateTeamDay c7Env "T" (5 * msPerDay)
      defaultScoringConfig).missingSymbols := by
  have h := claim_C7_missing_prices_degrade c7Env "T" (5 * msPerDay)
    defaultScoringConfig c7Holding (by decide) (by decide) (by decide)
  exact ⟨h.1, h.2.1⟩

lemma getCachedTeamDayScore_eq_some (env : ScoringEnv) (teamId : String)
    (date : Int) (row : CacheRow)
    (h : env.cache.find? (fun r => r.teamId == teamId && r.date == date) = some row) :
    getCachedTeamDayScore env teamId date =
      some ⟨teamId, date, row.points, row.breakdown, [], true⟩ := by
  unfold getCachedTeamDayScore
  rw [h]

lemma find?_upsertCache (teamId : String) (date : Int) (row : CacheRow)
    (m : List CacheRow)
    (hmatch : (row.teamId == teamId && row.date == date) = true)
    (hnone : m.find? (fun r => r.teamId == teamId && r.date == date) = none) :
    (upsertCache row m).find? (fun r => r.teamId == teamId && r.date == date) =
      some row := by
  simp only [Bool.and_eq_true, beq_iff_eq] at hmatch
  induction m with
  | nil =>
    simp [upsertCache, List.find?, hmatch]
  | cons r rest ih =>
    rw [List.find?_cons] at hnone
    cases hp : (r.teamId == teamId && r.date == date) with
    | true => rw [hp] at hnone; cases hnone
    | false =>
      rw [hp] at hnone
      have hcond : (r.teamId == row.teamId && r.date == row.date) = false := by
        rw [hmatch.1, hmatch.2]
        exact hp
      rw [show upsertCache row (r :: rest) = r :: upsertCache row rest from by
        simp [upsertCache, hcond]]
      rw [List.find?_cons, hp]
      exact ih hnone

/-- C10: a cache hit through `getOrCalculateScore` (without force) is always
reported with `isTradingDay = true` and an empty missing-symbol list,
whatever the original computation recorded; and since non-trading-day zero
scores are cached too, a first call on a non-trading day with a cold cache
returns a non-trading-day result while the immediate second call reports the
same day as a trading day with no missing symbols. -/
theorem claim_C10_cached_read_loses_flags (env : ScoringEnv) (teamId : String)
    (date : Int) (cfg : ScoringConfig) :
    (∀ row, env.cache.find? (fun r => r.teamId == teamId && r.date == date) = some row →
      (getOrCalculateScore env teamId date false cfg).1.isTradingDay = true ∧
      (getOrCalculateScore env teamId date false cfg).1.missingSymbols = []) ∧
    (isTradingDay env.calendar date = false →
      env.cache.find? (fun r => r.teamId == teamId && r.date == date) = none →
      (getOrCalculateScore env teamId date false cfg).1.isTradingDay = false ∧
      (getOrCalculateScore (getOrCalculateScore env teamId date false cfg).2
        teamId date false cfg).1.isTradingDay = true ∧
      (getOrCalculateScore (getOrCalculateScore env teamId date false cfg).2
        teamId date false cfg).1.missingSymbols = []) := by
  constructor
  · intro row hrow
    unfold getOrCalculateScore
    rw [if_neg (by simp)]
    rw [getCachedTeamDayScore_eq_some env teamId date row hrow]
    exact ⟨rfl, rfl⟩
  · intro hnontrading hnone
    have hcached : getCachedTeamDayScore env teamId date = none := by
      unfold getCachedTeamDayScore
      rw [hnone]
    have hds : calculateTeamDay env teamId date cfg =
        ⟨teamId, date, 0, [], [], false⟩ := by
      unfold calculateTeamDay
      rw [hnontrading]
      simp
    have hfirst : getOrCalculateScore env teamId date false cfg =
        (⟨teamId, date, 0, [], [], false⟩,
          cacheTeamDayScore env ⟨teamId, date, 0, [], [], false⟩) := by
      unfold getOrCalculateScore
      rw [if_neg (by simp), hcached, hds]
    refine ⟨by rw [hfirst], ?_, ?_⟩
    · rw [hfirst]
      unfold getOrCalculateScore
      rw [if_neg (by simp)]
      rw [getCachedTeamDayScore_eq_some _ teamId date ⟨teamId, date, 0, [], env.now⟩
        (find?_upsertCache teamId date _ _ (by simp) hnone)]
    · rw [hfirst]
      unfold getOrCalculateScore
      rw [if_neg (by simp)]
      rw [getCachedTeamDayScore_eq_some _ teamId date ⟨teamId, date, 0, [], env.now⟩
        (find?_upsertCache teamId date _ _ (by simp) hnone)]

/-- A concrete environment with one cached row, for the cache-hit branch of
the C10 witness. -/
def c10EnvHit : ScoringEnv :=
  { scoringEnvA with cache := [⟨"T", 3 * msPerDay, 3, [("AAA", 3)], 0⟩] }

/-- Witness for C10: a cache hit reports a trading day with no missing
symbols, and on a Sunday (1970-01-04) with a cold cache the first read says
non-trading while the second read says trading. -/
theorem claim_C10_witness :
    ((getOrCalculateScore c10EnvHit "T" (3 * msPerDay) false
        defaultScoringConfig).1.isTradingDay = true ∧
      (getOrCalculateScore c10EnvHit "T" (3 * msPerDay) false
        defaultScoringConfig).1.missingSymbols = []) ∧
    ((getOrCalculateScore scoringEnvA "T" (3 * msPerDay) false
        defaultScoringConfig).1.isTradingDay = false ∧
      (getOrCalculateScore (getOrCalculateScore scoringEnvA "T" (3 * msPerDay)
          false defaultScoringConfig).2 "T" (3 * msPerDay) false
        defaultScoringConfig).1.isTradingDay = true) := by
  refine ⟨?_, ?_⟩
  · exact (claim_C10_cached_read_loses_flags c10EnvHit "T" (3 * msPerDay)
      defaultScoringConfig).1 ⟨"T", 3 * msPerDay, 3, [("AAA", 3)], 0⟩ (by decide)
  · have h := (claim_C10_cached_read_loses_flags scoringEnvA "T" (3 * msPerDay)
      defaultScoringConfig).2 (by decide) (by decide)
    exact ⟨h.1, h.2.1⟩

deriving instance DecidableEq for Except

/-- Trade proposal lifecycle states (types/game.ts `TradeProposalStatus`). -/
inductive TradeStatus
  | PENDING
  | ACCEPTED
  | REJECTED
  | CANCELLED
  | EXPIRED
deriving DecidableEq

/-- One `trade_proposals` row. -/
structure TradeProposal where
  id : Nat
  fromTeamId : String
  toTeamId : String
  offeredSymbols : List String
  requestedSymbols : List String
  status : TradeStatus
  effectiveDate : Int
  createdAt : Int
  respondedAt : Option Int
deriving DecidableEq

/-- The trade engine's environment: the league's roster moves, the season's
instruments, budget and trade deadline, and the evaluated market-open
flag. -/
structure TradeEnv where
  marketOpen : Bool
  moves : List RosterMove
  instruments : List Instrument
  budget : Int
  tradeDeadlineDate : Int

/-- Mirrors `assertBeforeTradeDeadline` (trades module): the check is
violated when the attempt's UTC day is strictly after the deadline date. -/
def afterTradeDeadline (tradeDeadlineDate attemptedAt : Int) : Bool :=
  decide (tradeDeadlineDate < getUtcDayStart attemptedAt)

/-- The projected-roster join of `proposeTrade`/`acceptTrade`: map symbols
to holdings through the instrument set, dropping unknown symbols; every
projected holding carries the trade's effective date. -/
def projectRoster (instrs : List Instrument) (effectiveDate : Int)
    (syms : List String) : List Holding :=
  syms.filterMap fun sym =>
    match instrs.find? (fun i => i.symbol == sym) with
    | none => none
    | some i => some ⟨sym, effectiveDate, i.tier, i.tierCost⟩

/-- The paired TRADE roster moves committed by `acceptTrade`: for each
offered symbol an OUT leg for the proposer and an IN leg for the receiver,
then for each requested symbol an OUT leg for the receiver and an IN leg for
the proposer; row ids are assigned in insertion order from `baseId`. -/
def acceptTradeMoves (p : TradeProposal) (acceptedAt : Int) (baseId : Nat) :
    List RosterMove :=
  let legs :=
    (p.offeredSymbols.map fun s =>
      [(p.fromTeamId, s, TradeDirection.OUT),
       (p.toTeamId, s, TradeDirection.IN)]).flatten ++
    (p.requestedSymbols.map fun s =>
      [(p.toTeamId, s, TradeDirection.OUT),
       (p.fromTeamId, s, TradeDirection.IN)]).flatten
  legs.enum.map fun leg =>
    ⟨baseId + leg.1, leg.2.1, MoveType.TRADE, leg.2.2.1, p.effectiveDate,
      some leg.2.2.2, acceptedAt⟩

/-- Mirrors `acceptTrade` (trades module): re-verify market state, pending
status, acting team, deadline, both teams' holdings of the traded symbols
and both post-trade rosters, then commit the paired TRADE moves and mark the
proposal ACCEPTED. -/
def acceptTrade (env : TradeEnv) (proposal : TradeProposal)
    (actedByTeamId : Option String) (acceptedAt : Int) (baseId : Nat) :
    Except String (List RosterMove × TradeProposal) :=
  if env.marketOpen then
    Except.error "Trades are only allowed when the market is closed"
  else if proposal.status ≠ TradeStatus.PENDING then
    Except.error "Trade proposal is no longer pending"
  else if actedByTeamId.any (fun t => t != proposal.toTeamId) then
    Except.error "Only the receiving team can accept this trade"
  else if afterTradeDeadline env.tradeDeadlineDate acceptedAt then
    Except.error "Trade deadline has passed"
  else
    let fromHoldings := getHoldingsAtDate env.moves env.instruments
      proposal.fromTeamId proposal.effectiveDate
    let toHoldings := getHoldingsAtDate env.moves env.instruments
      proposal.toTeamId proposal.effectiveDate
    if proposal.offeredSymbols.any (fun s =>
        (fromHoldings.find? (fun h => h.symbol == s)).isNone) then
      Except.error "Trade no longer valid: proposer no longer holds a symbol"
    else if proposal.requestedSymbols.any (fun s =>
        (toHoldings.find? (fun h => h.symbol == s)).isNone) then
      Except.error "Trade no longer valid: receiving team no longer holds a symbol"
    else
      let afterOffered := proposal.offeredSymbols.foldl
        (fun (st : List String × List String) s => (setDelete s st.1, setAdd s st.2))
        (fromHoldings.map fun h => h.symbol, toHoldings.map fun h => h.symbol)
      let projected := proposal.requestedSymbols.foldl
        (fun (st : List String × List String) s => (setAdd s st.1, setDelete s st.2))
        afterOffered
      if (validateRoster (projectRoster env.instruments proposal.effectiveDate
          projected.1) env.budget).isValid = false then
        Except.error "Proposer roster invalid after trade"
      else if (validateRoster (projectRoster env.instruments proposal.effectiveDate
          projected.2) env.budget).isValid = false then
        Except.error "Counterparty roster invalid after trade"
      else
        Except.ok (acceptTradeMoves proposal acceptedAt baseId,
          { proposal with
            status := TradeStatus.ACCEPTED
            respondedAt := some acceptedAt })

/-- Instruments for the C1 failing input: two 8-stock rosters (tiers
1,2,3,4,5,4,5,3 — the valid example shape) with X on team A's side and Y on
team B's side. -/
def c1Instruments : List Instrument :=
  [⟨"X", 1, 20⟩, ⟨"A2", 2, 16⟩, ⟨"A3", 3, 12⟩, ⟨"A4", 4, 8⟩, ⟨"A5", 5, 4⟩,
   ⟨"A6", 4, 8⟩, ⟨"A7", 5, 4⟩, ⟨"A8", 3, 12⟩,
   ⟨"Y", 1, 20⟩, ⟨"B2", 2, 16⟩, ⟨"B3", 3, 12⟩, ⟨"B4", 4, 8⟩, ⟨"B5", 5, 4⟩,
   ⟨"B6", 4, 8⟩, ⟨"B7", 5, 4⟩, ⟨"B8", 3, 12⟩]

/-- Draft moves for the C1 failing input: team A drafts X,A2..A8 and team B
drafts Y,B2..B8, all effective Monday 1970-01-05. -/
def c1Moves : List RosterMove :=
  [⟨1, "A", MoveType.DRAFT, "X", 4 * msPerDay, none, 0⟩,
   ⟨2, "A", MoveType.DRAFT, "A2", 4 * msPerDay, none, 0⟩,
   ⟨3, "A", MoveType.DRAFT, "A3", 4 * msPerDay, none, 0⟩,
   ⟨4, "A", MoveType.DRAFT, "A4", 4 * msPerDay, none, 0⟩,
   ⟨5, "A", MoveType.DRAFT, "A5", 4 * msPerDay, none, 0⟩,
   ⟨6, "A", MoveType.DRAFT, "A6", 4 * msPerDay, none, 0⟩,
   ⟨7, "A", MoveType.DRAFT, "A7", 4 * msPerDay, none, 0⟩,
   ⟨8, "A", MoveType.DRAFT, "A8", 4 * msPerDay, none, 0⟩,
   ⟨9, "B", MoveType.DRAFT, "Y", 4 * msPerDay, none, 0⟩,
   ⟨10, "B", MoveType.DRAFT, "B2", 4 * msPerDay, none, 0⟩,
   ⟨11, "B", MoveType.DRAFT, "B3", 4 * msPerDay, none, 0⟩,
   ⟨12, "B", MoveType.DRAFT, "B4", 4 * msPerDay, none, 0⟩,
   ⟨13, "B", MoveType.DRAFT, "B5", 4 * msPerDay, none, 0⟩,
   ⟨14, "B", MoveType.DRAFT, "B6", 4 * msPerDay, none, 0⟩,
   ⟨15, "B", MoveType.DRAFT, "B7", 4 * msPerDay, none, 0⟩,
   ⟨16, "B", MoveType.DRAFT, "B8", 4 * msPerDay, none, 0⟩]

/-- Trade environment for the C1 failing input. -/
def c1Env : TradeEnv := ⟨false, c1Moves, c1Instruments, 100, 400 * msPerDay⟩

/-- The C1 failing input's proposal: team A offers X and requests Y from
team B, effective Wednesday 1970-01-07. -/
def c1Proposal : TradeProposal :=
  ⟨100, "A", "B", ["X"], ["Y"], TradeStatus.PENDING, 6 * msPerDay,
    5 * msPerDay, none⟩

/-- C1, evaluated at the failing input: `acceptTrade` validates and commits
the trade, but replaying the roster-move log afterwards leaves the offered
symbol X on team A's holdings. The replay fold removes a symbol only on a
`DROP` move, while `acceptTrade` records outgoing legs with type `TRADE`
(direction only in metadata), so an outgoing leg re-inserts the symbol
instead of removing it: team A ends up holding both X and Y — nine holdings
— and its committed roster fails the validator, contrary to the claim and to
the roster-size invariant. Team B correctly gains X because incoming legs
insert. -/
theorem claim_C1_trade_replay_failing_input :
    acceptTrade c1Env c1Proposal none (5 * msPerDay + 70000000) 17 =
      Except.ok (acceptTradeMoves c1Proposal (5 * msPerDay + 70000000) 17,
        { c1Proposal with
          status := TradeStatus.ACCEPTED
          respondedAt := some (5 * msPerDay + 70000000) }) ∧
    ((getHoldingsAtDate (c1Moves ++ acceptTradeMoves c1Proposal
          (5 * msPerDay + 70000000) 17) c1Instruments "A"
        (6 * msPerDay)).map fun h => h.symbol).contains "X" = true ∧
    ((getHoldingsAtDate (c1Moves ++ acceptTradeMoves c1Proposal
          (5 * msPerDay + 70000000) 17) c1Instruments "A"
        (6 * msPerDay)).map fun h => h.symbol).contains "Y" = true ∧
    (validateRoster (getHoldingsAtDate (c1Moves ++ acceptTradeMoves c1Proposal
          (5 * msPerDay + 70000000) 17) c1Instruments "A"
        (6 * msPerDay)) 100).isValid = false ∧
    ((getHoldingsAtDate (c1Moves ++ acceptTradeMoves c1Proposal
          (5 * msPerDay + 70000000) 17) c1Instruments "B"
        (6 * msPerDay)).map fun h => h.symbol).contains "X" = true := by
  refine ⟨by decide, by decide, by decide, by decide, by decide⟩

/-- The expiry test of `expirePendingTrades`: PENDING and effective on or
before the passed day. -/
def tradeShouldExpire (today : Int) (p : TradeProposal) : Bool :=
  p.status == TradeStatus.PENDING && decide (p.effectiveDate ≤ today)

/-- The row update of `expirePendingTrades`. -/
def expireTradeRow (atDate today : Int) (p : TradeProposal) : TradeProposal :=
  if tradeShouldExpire today p then
    { p with
      status := TradeStatus.EXPIRED
      respondedAt := some atDate }
  else p

/-- Mirrors `expirePendingTrades` (trades module): nothing happens while the
UTC day of `atDate` is on/before the trade deadline; afterwards every
PENDING proposal whose effective date is on/before that day is marked
EXPIRED, and the number of updated rows is returned. -/
def expirePendingTrades (tradeDeadlineDate atDate : Int)
    (proposals : List TradeProposal) : List TradeProposal × Nat :=
  if getUtcDayStart atDate ≤ tradeDeadlineDate then (proposals, 0)
  else
    (proposals.map (expireTradeRow atDate (getUtcDayStart atDate)),
     (proposals.filter (tradeShouldExpire (getUtcDayStart atDate))).length)

/-- A pending proposal effective on day 5 — before the deadline used in the
C3 counterexample. -/
def c3Proposal : TradeProposal :=
  ⟨7, "A", "B", ["X"], ["Y"], TradeStatus.PENDING, 5 * msPerDay,
    4 * msPerDay, none⟩

/-- C3 counterexample: with the trade deadline on day 10 and `asOf` on day
20, a PENDING proposal whose effective date (day 5) lies strictly before the
deadline is nevertheless transitioned to EXPIRED — the code expires by
`effectiveDate ≤ asOf day`, not by `effectiveDate ≥ deadline` as the claim
states. -/
theorem claim_C3_counterexample :
    (expirePendingTrades (10 * msPerDay) (20 * msPerDay) [c3Proposal]).1 =
      [{ c3Proposal with
         status := TradeStatus.EXPIRED
         respondedAt := some (20 * msPerDay) }] ∧
    c3Proposal.effectiveDate < 10 * msPerDay ∧
    c3Proposal.status = TradeStatus.PENDING := by
  refine ⟨by decide, by decide, by decide⟩

/-- C3 (amended): once the `asOf` day is strictly past the trade deadline,
`expirePendingTrades` transitions to EXPIRED exactly the PENDING proposals
whose effective date is on or before the `asOf` day — every other row is
returned unchanged, and nothing changes while the deadline has not passed —
and calling it again immediately afterwards expires nothing further and
changes no state. -/
theorem claim_C3_expirePendingTrades (tradeDeadlineDate atDate : Int)
    (proposals : List TradeProposal) :
    List.Forall₂ (fun p q =>
        (q.status = TradeStatus.EXPIRED ↔
          (p.status = TradeStatus.EXPIRED ∨
            (tradeDeadlineDate < getUtcDayStart atDate ∧
             p.status = TradeStatus.PENDING ∧
             p.effectiveDate ≤ getUtcDayStart atDate))) ∧
        (¬ (tradeDeadlineDate < getUtcDayStart atDate ∧
            p.status = TradeStatus.PENDING ∧
            p.effectiveDate ≤ getUtcDayStart atDate) → q = p))
      proposals (expirePendingTrades tradeDeadlineDate atDate proposals).1 ∧
    expirePendingTrades tradeDeadlineDate atDate
        (expirePendingTrades tradeDeadlineDate atDate proposals).1 =
      ((expirePendingTrades tradeDeadlineDate atDate proposals).1, 0) := by
  have hexpire : ∀ p, tradeShouldExpire (getUtcDayStart atDate) p = true ↔
      (p.status = TradeStatus.PENDING ∧ p.effectiveDate ≤ getUtcDayStart atDate) := by
    intro p
    simp [tradeShouldExpire]
  constructor
  · unfold expirePendingTrades
    by_cases hd : getUtcDayStart atDate ≤ tradeDeadlineDate
    · rw [if_pos hd]
      rw [List.forall₂_same]
      intro p _
      refine ⟨⟨fun h => Or.inl h, ?_⟩, fun _ => rfl⟩
      rintro (h | ⟨hlt, _, _⟩)
      · exact h
      · omega
    · rw [if_neg hd]
      show List.Forall₂ _ proposals (proposals.map _)
      rw [List.forall₂_map_right_iff, List.forall₂_same]
      intro p _
      by_cases hse : tradeShouldExpire (getUtcDayStart atDate) p = true
      · have hc := (hexpire p).mp hse
        unfold expireTradeRow
        rw [if_pos hse]
        refine ⟨⟨fun _ => Or.inr ⟨by omega, hc.1, hc.2⟩, fun _ => rfl⟩, ?_⟩
        intro hno
        exact absurd ⟨by omega, hc.1, hc.2⟩ hno
      · have hc : ¬ (p.status = TradeStatus.PENDING ∧
            p.effectiveDate ≤ getUtcDayStart atDate) := fun h =>
          hse ((hexpire p).mpr h)
        unfold expireTradeRow
        rw [if_neg hse]
        refine ⟨⟨fun h => Or.inl h, ?_⟩, fun _ => rfl⟩
        rintro (h | ⟨_, h1, h2⟩)
        · exact h
        · exact absurd ⟨h1, h2⟩ hc
  · by_cases hd : getUtcDayStart atDate ≤ tradeDeadlineDate
    · have h1 : expirePendingTrades tradeDeadlineDate atDate proposals =
          (proposals, 0) := by
        unfold expirePendingTrades
        rw [if_pos hd]
      rw [h1]
      exact h1
    · have h1 : expirePendingTrades tradeDeadlineDate atDate proposals =
          (proposals.map (expireTradeRow atDate (getUtcDayStart atDate)),
           (proposals.filter (tradeShouldExpire (getUtcDayStart atDate))).length) := by
        unfold expirePendingTrades
        rw [if_neg hd]
      have hkey : ∀ q ∈ proposals.map (expireTradeRow atDate (getUtcDayStart atDate)),
          tradeShouldExpire (getUtcDayStart atDate) q = false := by
        intro q hq
        rcases List.mem_map.mp hq with ⟨p, _, hpq⟩
        subst hpq
        unfold expireTradeRow
        by_cases hse : tradeShouldExpire (getUtcDayStart atDate) p = true
        · rw [if_pos hse]
          simp [tradeShouldExpire]
        · rw [if_neg hse]
          simpa using hse
      rw [h1]
      show expirePendingTrades tradeDeadlineDate atDate
          (proposals.map (expireTradeRow atDate (getUtcDayStart atDate))) = _
      unfold expirePendingTrades
      rw [if_neg hd]
      refine Prod.ext ?_ ?_
      · show (proposals.map (expireTradeRow atDate (getUtcDayStart atDate))).map
            (expireTradeRow atDate (getUtcDayStart atDate)) = _
        calc (proposals.map (expireTradeRow atDate (getUtcDayStart atDate))).map
              (expireTradeRow atDate (getUtcDayStart atDate))
            = (proposals.map (expireTradeRow atDate (getUtcDayStart atDate))).map id := by
              apply List.map_congr_left
              intro q hq
              unfold expireTradeRow
              rw [if_neg (by simp [hkey q hq])]
              rfl
          _ = _ := List.map_id _
      · show ((proposals.map (expireTradeRow atDate (getUtcDayStart atDate))).filter
            (tradeShouldExpire (getUtcDayStart atDate))).length = 0
        rw [List.filter_eq_nil_iff.mpr (by
          intro q hq
          simp [hkey q hq])]
        rfl

/-- Waiver claim lifecycle states (types/game.ts `WaiverClaimStatus`). -/
inductive ClaimStatus
  | PENDING
  | WON
  | LOST
  | CANCELLED
deriving DecidableEq

/-- One `waiver_claims` row. -/
structure WaiverClaim where
  id : Nat
  teamId : String
  addSymbol : String
  dropSymbol : String
  faabBid : Int
  status : ClaimStatus
  effectiveDate : Int
  createdAt : Int
deriving DecidableEq

/-- League ownership modes (types/game.ts `OwnershipMode`). -/
inductive OwnershipMode
  | UNIQUE
  | DUPLICATES
deriving DecidableEq

/-- League lifecycle states (types/game.ts `LeagueStatus`). -/
inductive LeagueStatus
  | DRAFT_PENDING
  | DRAFTING
  | ACTIVE
  | COMPLETED
deriving DecidableEq

/-- Mirrors `normalizeSymbol` (swaps.ts). -/
def normalizeSymbol (s : String) : String := s.trim.toUpper

/-- The swap engine's environment: the submitting team's league/season
context, the league-wide roster moves and waiver claims, the season's
instruments and the evaluated market-open flag. -/
structure SwapEnv where
  calendar : CalendarCtx
  marketOpen : Bool
  leagueStatus : LeagueStatus
  ownershipMode : OwnershipMode
  faabBudget : Int
  budget : Int
  maxSwapsPerDay : Int
  maxSwapsPerWeek : Int
  instruments : List Instrument
  moves : List RosterMove
  claims : List WaiverClaim

/-- Result shape of `getRemainingSwaps` (swaps.ts). -/
structure RemainingSwaps where
  maxPerDay : Int
  maxPerWeek : Int
  usedToday : Int
  usedThisWeek : Int
  remainingToday : Int
  remainingThisWeek : Int
deriving DecidableEq

/-- Mirrors `getRemainingSwaps` (swaps.ts): in unique leagues count the
team's non-cancelled waiver claims created in the current UTC day/week
windows, in duplicates leagues count its ADD roster moves there; remaining
capacity is clamped at zero. -/
def getRemainingSwaps (env : SwapEnv) (teamId : String) (atDate : Int) :
    RemainingSwaps :=
  let dayStart := getUtcDayStart atDate
  let dayEnd := getUtcDayEnd dayStart
  let weekStart := getUtcWeekStart atDate
  let weekEnd := getUtcDayEnd (weekStart + 6 * msPerDay)
  let inWindow := fun (lo hi t : Int) => decide (lo ≤ t) && decide (t ≤ hi)
  let usedToday : Int :=
    if env.ownershipMode = OwnershipMode.UNIQUE then
      ((env.claims.filter fun c => c.teamId == teamId &&
        inWindow dayStart dayEnd c.createdAt &&
        c.status != ClaimStatus.CANCELLED).length : Int)
    else
      ((env.moves.filter fun m => m.teamId == teamId &&
        m.type == MoveType.ADD && inWindow dayStart dayEnd m.createdAt).length : Int)
  let usedThisWeek : Int :=
    if env.ownershipMode = OwnershipMode.UNIQUE then
      ((env.claims.filter fun c => c.teamId == teamId &&
        inWindow weekStart weekEnd c.createdAt &&
        c.status != ClaimStatus.CANCELLED).length : Int)
    else
      ((env.moves.filter fun m => m.teamId == teamId &&
        m.type == MoveType.ADD && inWindow weekStart weekEnd m.createdAt).length : Int)
  ⟨env.maxSwapsPerDay, env.maxSwapsPerWeek, usedToday, usedThisWeek,
   max (env.maxSwapsPerDay - usedToday) 0, max (env.maxSwapsPerWeek - usedThisWeek) 0⟩

/-- The team-holdings set fold of `submitSwap` (a `Set`, not a `Map`): DROP
deletes, every other kind inserts. -/
def holdingSymbolsFold (ordered : List RosterMove) : List String :=
  ordered.foldl (fun acc m =>
    match m.type with
    | MoveType.DROP => setDelete m.symbol acc
    | _ => setAdd m.symbol acc) []

/-- The league-wide ownership fold of `submitSwap` (unique mode): a DROP
clears a symbol's owner only when the recorded owner is the dropping
team. -/
def ownerFold (ordered : List RosterMove) : List (String × String) :=
  ordered.foldl (fun owner m =>
    match m.type with
    | MoveType.DROP =>
      if assocGet m.symbol owner = some m.teamId then assocDelete m.symbol owner
      else owner
    | _ => assocSet m.symbol m.teamId owner) []

/-- Successful result of `submitSwap`: either an immediately committed
DROP/ADD move pair (duplicates mode) or a pending waiver claim (unique
mode). -/
inductive SwapOutcome
  | direct (moves : List RosterMove)
  | waiver (claim : WaiverClaim)
deriving DecidableEq

/-- The roster and ownership checks of `submitSwap` after its submission
guards, over the reconstructed holding set and (for unique leagues) owner
map: drop must be held, add must not be held, add must be a season
instrument, the projected roster must validate, and in unique mode the bid
must be a non-negative amount within the remaining budget for a not
otherwise-owned symbol. -/
def submitSwapChecked (env : SwapEnv) (teamId dropSymbol addSymbol : String)
    (faabBid : Option Int) (submittedAt effectiveDate : Int) (baseId : Nat)
    (holdingSymbols : List String) (owner : List (String × String)) :
    Except String SwapOutcome :=
  if ¬ (dropSymbol ∈ holdingSymbols) then
    Except.error "Cannot drop: symbol is not currently held"
  else if addSymbol ∈ holdingSymbols then
    Except.error "Cannot add: symbol is already on roster"
  else if (env.instruments.find? (fun i => i.symbol == addSymbol)).isNone then
    Except.error "Cannot add: symbol is not in this season"
  else if (validateRoster (projectRoster env.instruments effectiveDate
      (setAdd addSymbol (setDelete dropSymbol holdingSymbols)))
      env.budget).isValid = false then
    Except.error "Projected roster invalid"
  else if env.ownershipMode = OwnershipMode.UNIQUE then
    if faabBid.getD 0 < 0 then
      Except.error "FAAB bid must be a non-negative integer"
    else if env.faabBudget < faabBid.getD 0 then
      Except.error "FAAB bid exceeds remaining budget"
    else if (assocGet addSymbol owner).any
        (fun ownerTeamId => ownerTeamId != teamId) then
      Except.error "Cannot add: symbol is already owned"
    else
      Except.ok (SwapOutcome.waiver
        ⟨baseId, teamId, addSymbol, dropSymbol, faabBid.getD 0,
          ClaimStatus.PENDING, effectiveDate, submittedAt⟩)
  else
    Except.ok (SwapOutcome.direct
      [⟨baseId, teamId, MoveType.DROP, dropSymbol, effectiveDate, none, submittedAt⟩,
       ⟨baseId + 1, teamId, MoveType.ADD, addSymbol, effectiveDate, none, submittedAt⟩])

/-- Mirrors `submitSwap` (swaps.ts), check for check in source order: the
submission guards (symbols present and distinct, market closed, league
active, daily/weekly limits), then the roster/ownership checks of
`submitSwapChecked` over the holdings and owner map reconstructed as of the
effective date. The market-open check is the evaluated `marketOpen` flag;
the source's `Number.isInteger` bid check is inherent in the `Int` bid
type. -/
def submitSwap (env : SwapEnv) (teamId dropSymbolRaw addSymbolRaw : String)
    (faabBid : Option Int) (submittedAt : Int) (baseId : Nat) :
    Except String SwapOutcome :=
  if normalizeSymbol dropSymbolRaw = "" ∨ normalizeSymbol addSymbolRaw = "" then
    Except.error "Drop and add symbols are required"
  else if normalizeSymbol dropSymbolRaw = normalizeSymbol addSymbolRaw then
    Except.error "Drop and add symbols must be different"
  else if env.marketOpen then
    Except.error "Swaps are only allowed when the market is closed"
  else if env.leagueStatus ≠ LeagueStatus.ACTIVE then
    Except.error "Swaps are only allowed in active leagues"
  else if (getRemainingSwaps env teamId submittedAt).remainingToday < 1 then
    Except.error "Daily swap limit reached"
  else if (getRemainingSwaps env teamId submittedAt).remainingThisWeek < 1 then
    Except.error "Weekly swap limit reached"
  else
    submitSwapChecked env teamId (normalizeSymbol dropSymbolRaw)
      (normalizeSymbol addSymbolRaw) faabBid submittedAt
      (getNextEffectiveDate env.calendar submittedAt) baseId
      (holdingSymbolsFold (sortMoves (env.moves.filter fun m =>
        m.teamId == teamId &&
        decide (m.effectiveDate ≤ getNextEffectiveDate env.calendar submittedAt))))
      (ownerFold (sortMoves (env.moves.filter fun m =>
        decide (m.effectiveDate ≤ getNextEffectiveDate env.calendar submittedAt))))

/-- The ranking of `processWaiverClaims`: bid descending, then cumulative
standing points ascending (worse record wins ties), then submission time
ascending, then claim id ascending. `rankLE standings a b` holds when `a`
sorts no later than `b` under the source's comparator. -/
def rankLE (standings : String → ℚ) (a b : WaiverClaim) : Prop :=
  a.faabBid > b.faabBid ∨
    (a.faabBid = b.faabBid ∧
      (standings a.teamId < standings b.teamId ∨
        (standings a.teamId = standings b.teamId ∧
          (a.createdAt < b.createdAt ∨
            (a.createdAt = b.createdAt ∧ a.id ≤ b.id)))))

instance (standings : String → ℚ) : DecidableRel (rankLE standings) :=
  fun a b => by
    unfold rankLE
    infer_instance

instance (standings : String → ℚ) : IsTotal WaiverClaim (rankLE standings) := by
  constructor
  intro a b
  unfold rankLE
  rcases lt_trichotomy a.faabBid b.faabBid with h | h | h
  · exact Or.inr (Or.inl h)
  · rcases lt_trichotomy (standings a.teamId) (standings b.teamId) with h2 | h2 | h2
    · exact Or.inl (Or.inr ⟨h, Or.inl h2⟩)
    · rcases lt_trichotomy a.createdAt b.createdAt with h3 | h3 | h3
      · exact Or.inl (Or.inr ⟨h, Or.inr ⟨h2, Or.inl h3⟩⟩)
      · rcases le_total a.id b.id with h4 | h4
        · exact Or.inl (Or.inr ⟨h, Or.inr ⟨h2, Or.inr ⟨h3, h4⟩⟩⟩)
        · exact Or.inr (Or.inr ⟨h.symm, Or.inr ⟨h2.symm, Or.inr ⟨h3.symm, h4⟩⟩⟩)
      · exact Or.inr (Or.inr ⟨h.symm, Or.inr ⟨h2.symm, Or.inl h3⟩⟩)
    · exact Or.inr (Or.inr ⟨h.symm, Or.inl h2⟩)
  · exact Or.inl (Or.inl h)

instance (standings : String → ℚ) : IsTrans WaiverClaim (rankLE standings) := by
  constructor
  intro a b c hab hbc
  unfold rankLE at hab hbc ⊢
  rcases hab with h1 | ⟨e1, h1⟩
  · rcases hbc with h2 | ⟨e2, _⟩
    · exact Or.inl (by omega)
    · exact Or.inl (by omega)
  · rcases hbc with h2 | ⟨e2, h2⟩
    · exact Or.inl (by omega)
    · refine Or.inr ⟨by omega, ?_⟩
      rcases h1 with h1 | ⟨f1, h1⟩
      · rcases h2 with h2 | ⟨f2, _⟩
        · exact Or.inl (by linarith)
        · exact Or.inl (by linarith)
      · rcases h2 with h2 | ⟨f2, h2⟩
        · exact Or.inl (by linarith)
        · refine Or.inr ⟨by linarith, ?_⟩
          rcases h1 with h1 | ⟨g1, h1⟩
          · rcases h2 with h2 | ⟨g2, _⟩
            · exact Or.inl (by omega)
            · exact Or.inl (by omega)
          · rcases h2 with h2 | ⟨g2, h2⟩
            · exact Or.inl (by omega)
            · exact Or.inr ⟨by omega, by omega⟩

/-- Result row pushed for each auction winner. -/
structure WinnerRec where
  claimId : Nat
  teamId : String
  addSymbol : String
  dropSymbol : String
  faabBid : Int
deriving DecidableEq

/-- In-memory resolution state of `processWaiverClaims`: per-team budgets
and holding sets, the league-wide owner map, and the accumulated winner
records (the claims marked WON, budgets deducted, DROP/ADD moves committed)
and LOST claim ids. -/
structure ResolveState where
  budgets : List (String × Int)
  holdings : List (String × List String)
  owner : List (String × String)
  winners : List WinnerRec
  lost : List Nat
deriving DecidableEq

/-- The candidate checks of `processWaiverClaims`, in source order: the
in-pass team budget covers the bid, the add symbol is unowned, the claimant
still holds the drop symbol and does not hold the add symbol, and the
projected roster is valid against the season budget. -/
def claimPasses (seasonBudget effectiveDate : Int) (instrs : List Instrument)
    (st : ResolveState) (c : WaiverClaim) : Bool :=
  if (assocGet c.teamId st.budgets).getD 0 < c.faabBid then false
  else if (assocGet c.addSymbol st.owner).isSome then false
  else
    match assocGet c.teamId st.holdings with
    | none => false
    | some teamHoldings =>
      if ¬ (c.dropSymbol ∈ teamHoldings) then false
      else if c.addSymbol ∈ teamHoldings then false
      else
        (validateRoster (projectRoster instrs effectiveDate
          (setAdd c.addSymbol (setDelete c.dropSymbol teamHoldings)))
          seasonBudget).isValid

/-- Resolution of one add-symbol group of `processWaiverClaims`: rank the
group's claims and walk the ranking to the first candidate passing all
checks. The winner's budget, holdings and the owner map are updated in
memory, a winner record is pushed, and every other claim id of the group is
added to the LOST set; a group without a passing candidate marks all its
claims LOST. -/
def resolveGroup (seasonBudget effectiveDate : Int) (instrs : List Instrument)
    (standings : String → ℚ) (st : ResolveState) (group : List WaiverClaim) :
    ResolveState :=
  match (List.insertionSort (rankLE standings) group).find?
      (claimPasses seasonBudget effectiveDate instrs st) with
  | none =>
    { st with lost := st.lost ++
        (List.insertionSort (rankLE standings) group).map (fun c => c.id) }
  | some w =>
    { budgets := assocSet w.teamId
        ((assocGet w.teamId st.budgets).getD 0 - w.faabBid) st.budgets
      holdings :=
        match assocGet w.teamId st.holdings with
        | some hs => assocSet w.teamId
            (setAdd w.addSymbol (setDelete w.dropSymbol hs)) st.holdings
        | none => st.holdings
      owner := assocSet w.addSymbol w.teamId (assocDelete w.dropSymbol st.owner)
      winners := st.winners ++ [⟨w.id, w.teamId, w.addSymbol, w.dropSymbol, w.faabBid⟩]
      lost := st.lost ++
        ((List.insertionSort (rankLE standings) group).filter
          (fun c => c.id != w.id)).map (fun c => c.id) }

/-- The (createdAt, id) order in which `processWaiverClaims` loads its
pending claims. -/
def claimLoadLE (a b : WaiverClaim) : Prop :=
  a.createdAt < b.createdAt ∨ (a.createdAt = b.createdAt ∧ a.id ≤ b.id)

instance : DecidableRel claimLoadLE := fun a b => by
  unfold claimLoadLE
  infer_instance

/-- Grouping of pending claims by add symbol, preserving first-seen group
order and in-group encounter order (JavaScript `Map` semantics). -/
def groupByAdd (claims : List WaiverClaim) : List (String × List WaiverClaim) :=
  claims.foldl (fun acc c =>
    match assocGet c.addSymbol acc with
    | some g => assocSet c.addSymbol (g ++ [c]) acc
    | none => acc ++ [(c.addSymbol, [c])]) []

/-- The league-wide holdings/ownership rebuild of `processWaiverClaims`:
holding sets per team (moves of teams missing from the team list are
skipped) and the owner map; a DROP clears a symbol's owner only when the
recorded owner is the dropping team. -/
def buildOwnership (teamIds : List String) (ordered : List RosterMove) :
    List (String × List String) × List (String × String) :=
  ordered.foldl (fun acc row =>
    match assocGet row.teamId acc.1 with
    | none => acc
    | some teamHoldings =>
      match row.type with
      | MoveType.DROP =>
        (assocSet row.teamId (setDelete row.symbol teamHoldings) acc.1,
         if assocGet row.symbol acc.2 = some row.teamId then
           assocDelete row.symbol acc.2
         else acc.2)
      | _ =>
        (assocSet row.teamId (setAdd row.symbol teamHoldings) acc.1,
         assocSet row.symbol row.teamId acc.2))
    (teamIds.map (fun t => (t, ([] : List String))), [])

/-- The waiver-resolution environment: league mode, season budget and
instruments, the team budget rows, the league-wide moves and claims, and
the cumulative standing points per team as of the effective date. -/
structure WaiverEnv where
  ownershipMode : OwnershipMode
  budget : Int
  instruments : List Instrument
  teams : List (String × Int)
  moves : List RosterMove
  claims : List WaiverClaim
  standings : String → ℚ

/-- Mirrors `processWaiverClaims` (swaps.ts): for a unique-ownership league,
load the PENDING claims with the given effective date in (createdAt, id)
order, rebuild holdings and ownership from the move log, group the claims
by add symbol and resolve the groups in order, threading the in-memory
state so later groups see earlier winners. -/
def processWaiverClaims (env : WaiverEnv) (date : Int) :
    Except String ResolveState :=
  if env.ownershipMode ≠ OwnershipMode.UNIQUE then
    Except.error "Waiver processing is only used for unique leagues"
  else
    let effectiveDate := getUtcDayStart date
    let pending := List.insertionSort claimLoadLE (env.claims.filter fun c =>
      c.status == ClaimStatus.PENDING && c.effectiveDate == effectiveDate)
    let built := buildOwnership (env.teams.map Prod.fst)
      (sortMoves (env.moves.filter fun m =>
        decide (m.effectiveDate ≤ effectiveDate)))
    Except.ok ((groupByAdd pending).foldl
      (fun st g => resolveGroup env.budget effectiveDate env.instruments
        env.standings st g.2)
      ⟨env.teams, built.1, built.2, [], []⟩)

/-- Strict precedence in the auction ranking, written out: strictly higher
bid, or equal bid and strictly fewer standing points, or those equal and
strictly earlier submission, or those equal and strictly smaller claim
id. -/
def rankBefore (standings : String → ℚ) (a b : WaiverClaim) : Prop :=
  a.faabBid > b.faabBid ∨
    (a.faabBid = b.faabBid ∧
      (standings a.teamId < standings b.teamId ∨
        (standings a.teamId = standings b.teamId ∧
          (a.createdAt < b.createdAt ∨
            (a.createdAt = b.createdAt ∧ a.id < b.id)))))

instance (standings : String → ℚ) : DecidableRel (rankBefore standings) :=
  fun a b => by
    unfold rankBefore
    infer_instance

lemma rankBefore_not_le (standings : String → ℚ) (a b : WaiverClaim)
    (h : rankBefore standings a b) : ¬ rankLE standings b a := by
  unfold rankBefore at h
  unfold rankLE
  intro hba
  rcases h with h | ⟨e, h⟩
  · rcases hba with h2 | ⟨e2, _⟩
    · omega
    · omega
  · rcases hba with h2 | ⟨e2, h2⟩
    · omega
    · rcases h with h | ⟨f, h⟩
      · rcases h2 with h2 | ⟨f2, _⟩
        · linarith
        · linarith
      · rcases h2 with h2 | ⟨f2, h2⟩
        · linarith
        · rcases h with h | ⟨g, h⟩
          · rcases h2 with h2 | ⟨g2, _⟩
            · omega
            · omega
          · rcases h2 with h2 | ⟨g2, h2⟩
            · omega
            · omega

/-- On a list sorted by the ranking, `find?` returns the passing element
that strictly precedes every other passing element. -/
lemma sorted_find_first (standings : String → ℚ) (p : WaiverClaim → Bool)
    (l : List WaiverClaim)
    (hsorted : List.Pairwise (fun a b => rankLE standings a b) l)
    (c : WaiverClaim) (hc : c ∈ l) (hpc : p c = true)
    (hmin : ∀ x ∈ l, x ≠ c → p x = true → rankBefore standings c x) :
    l.find? p = some c := by
  induction l with
  | nil => cases hc
  | cons h rest ih =>
    obtain ⟨hhead, htail⟩ := List.pairwise_cons.mp hsorted
    rcases List.mem_cons.mp hc with heq | hmem
    · subst heq
      simp [List.find?_cons, hpc]
    · by_cases hph : p h = true
      · by_cases hhc : h = c
        · subst hhc
          simp [List.find?_cons, hph]
        · exfalso
          have hb := hmin h (List.mem_cons_self _ _) hhc hph
          exact rankBefore_not_le standings c h hb (hhead c hmem)
      · have hph2 : p h = false := by simpa using hph
        rw [List.find?_cons, hph2]
        exact ih htail hmem (fun x hx hxc hpx =>
          hmin x (List.mem_cons_of_mem _ hx) hxc hpx)

/-- C4: within one contested add-symbol group, resolution ranks the claims
by bid descending, then cumulative standing points ascending, then
submission time ascending, then claim id ascending, and the winner is the
first claim in this order passing the budget, symbol-ownership, drop-held,
add-not-held and roster-validity checks; every other claim of the group is
marked LOST and the winner is not. -/
theorem claim_C4_waiver_ranking (seasonBudget effectiveDate : Int)
    (instrs : List Instrument) (standings : String → ℚ) (st : ResolveState)
    (group : List WaiverClaim) (c : WaiverClaim)
    (hinj : ∀ x ∈ group, ∀ y ∈ group, x.id = y.id → x = y)
    (hmem : c ∈ group)
    (hpass : claimPasses seasonBudget effectiveDate instrs st c = true)
    (hfirst : ∀ x ∈ group, x ≠ c →
      claimPasses seasonBudget effectiveDate instrs st x = true →
      rankBefore standings c x)
    (hnotlost : c.id ∉ st.lost) :
    (resolveGroup seasonBudget effectiveDate instrs standings st group).winners =
      st.winners ++ [⟨c.id, c.teamId, c.addSymbol, c.dropSymbol, c.faabBid⟩] ∧
    (∀ x ∈ group, x ≠ c →
      x.id ∈ (resolveGroup seasonBudget effectiveDate instrs standings st group).lost) ∧
    c.id ∉ (resolveGroup seasonBudget effectiveDate instrs standings st group).lost := by
  have hperm := List.perm_insertionSort (rankLE standings) group
  have hsorted := List.sorted_insertionSort (rankLE standings) group
  have hfind : (List.insertionSort (rankLE standings) group).find?
      (claimPasses seasonBudget effectiveDate instrs st) = some c := by
    refine sorted_find_first standings _ _ hsorted c (hperm.mem_iff.mpr hmem) hpass ?_
    intro x hx hxc hpx
    exact hfirst x (hperm.mem_iff.mp hx) hxc hpx
  unfold resolveGroup
  rw [hfind]
  refine ⟨rfl, ?_, ?_⟩
  · intro x hx hxc
    have hxr : x ∈ List.insertionSort (rankLE standings) group :=
      hperm.mem_iff.mpr hx
    have hxid : x.id ≠ c.id := fun hEq => hxc (hinj x hx c hmem hEq)
    show x.id ∈ st.lost ++ _
    refine List.mem_append.mpr (Or.inr ?_)
    exact List.mem_map_of_mem _ (List.mem_filter.mpr ⟨hxr, by simpa using hxid⟩)
  · intro habs
    rcases List.mem_append.mp habs with h | h
    · exact hnotlost h
    · rcases List.mem_map.mp h with ⟨y, hy, hyid⟩
      have hne := (List.mem_filter.mp hy).2
      rw [hyid] at hne
      simp at hne

/-- Instruments for the waiver witnesses: team A's roster S1..S8, team B's
roster T1..T8 (tiers 1,2,3,4,5,4,5,3) and the contested free agent X. -/
def c4Instruments : List Instrument :=
  [⟨"S1", 1, 20⟩, ⟨"S2", 2, 16⟩, ⟨"S3", 3, 12⟩, ⟨"S4", 4, 8⟩, ⟨"S5", 5, 4⟩,
   ⟨"S6", 4, 8⟩, ⟨"S7", 5, 4⟩, ⟨"S8", 3, 12⟩,
   ⟨"T1", 1, 20⟩, ⟨"T2", 2, 16⟩, ⟨"T3", 3, 12⟩, ⟨"T4", 4, 8⟩, ⟨"T5", 5, 4⟩,
   ⟨"T6", 4, 8⟩, ⟨"T7", 5, 4⟩, ⟨"T8", 3, 12⟩,
   ⟨"X", 3, 12⟩]

/-- Resolution state for the waiver witnesses: both teams hold full rosters
and a budget of 100; X is unowned. -/
def c4State : ResolveState :=
  ⟨[("A", 100), ("B", 100)],
   [("A", ["S1", "S2", "S3", "S4", "S5", "S6", "S7", "S8"]),
    ("B", ["T1", "T2", "T3", "T4", "T5", "T6", "T7", "T8"])],
   [], [], []⟩

/-- Standing points: team A has 5, team B has 8 (team A has the worse
record and wins bid ties). -/
def c4Standings : String → ℚ := fun t => if t = "A" then 5 else 8

/-- Team A's claim: bid 10, submitted later (time 100). -/
def c4ClaimA : WaiverClaim :=
  ⟨1, "A", "X", "S8", 10, ClaimStatus.PENDING, 6 * msPerDay, 100⟩

/-- Team B's claim: bid 10, submitted earlier (time 50). -/
def c4ClaimB : WaiverClaim :=
  ⟨2, "B", "X", "T8", 10, ClaimStatus.PENDING, 6 * msPerDay, 50⟩

/-- Witness for C4 — the spec's tie-break example: equal bids of 10, so the
claimant with fewer cumulative standing points (team A, despite submitting
later) wins, and the other claim is marked LOST. -/
theorem claim_C4_witness :
    (resolveGroup 100 (6 * msPerDay) c4Instruments c4Standings c4State
        [c4ClaimA, c4ClaimB]).winners = [⟨1, "A", "X", "S8", 10⟩] ∧
    (2 : Nat) ∈ (resolveGroup 100 (6 * msPerDay) c4Instruments c4Standings
        c4State [c4ClaimA, c4ClaimB]).lost ∧
    (1 : Nat) ∉ (resolveGroup 100 (6 * msPerDay) c4Instruments c4Standings
        c4State [c4ClaimA, c4ClaimB]).lost := by
  have h := claim_C4_waiver_ranking 100 (6 * msPerDay) c4Instruments c4Standings
    c4State [c4ClaimA, c4ClaimB] c4ClaimA (by decide) (by decide) (by decide)
    (by decide) (by decide)
  exact ⟨h.1, h.2.1 c4ClaimB (by decide) (by decide), h.2.2⟩

lemma claimPasses_budget_le (seasonBudget effectiveDate : Int)
    (instrs : List Instrument) (st : ResolveState) (c : WaiverClaim)
    (h : claimPasses seasonBudget effectiveDate instrs st c = true) :
    c.faabBid ≤ (assocGet c.teamId st.budgets).getD 0 := by
  unfold claimPasses at h
  by_cases hb : (assocGet c.teamId st.budgets).getD 0 < c.faabBid
  · rw [if_pos hb] at h
    cases h
  · omega

lemma claimPasses_overbid (seasonBudget effectiveDate : Int)
    (instrs : List Instrument) (st : ResolveState) (c : WaiverClaim)
    (h : (assocGet c.teamId st.budgets).getD 0 < c.faabBid) :
    claimPasses seasonBudget effectiveDate instrs st c = false := by
  unfold claimPasses
  rw [if_pos h]

lemma resolveGroup_budgets (seasonBudget effectiveDate : Int)
    (instrs : List Instrument) (standings : String → ℚ) (st : ResolveState)
    (group : List WaiverClaim) :
    (∃ w ∈ group, claimPasses seasonBudget effectiveDate instrs st w = true ∧
      w.faabBid ≤ (assocGet w.teamId st.budgets).getD 0 ∧
      (resolveGroup seasonBudget effectiveDate instrs standings st group).budgets =
        assocSet w.teamId ((assocGet w.teamId st.budgets).getD 0 - w.faabBid)
          st.budgets ∧
      (resolveGroup seasonBudget effectiveDate instrs standings st group).winners =
        st.winners ++ [⟨w.id, w.teamId, w.addSymbol, w.dropSymbol, w.faabBid⟩]) ∨
    ((resolveGroup seasonBudget effectiveDate instrs standings st group).budgets =
        st.budgets ∧
      (resolveGroup seasonBudget effectiveDate instrs standings st group).winners =
        st.winners) := by
  unfold resolveGroup
  cases hfind : (List.insertionSort (rankLE standings) group).find?
      (claimPasses seasonBudget effectiveDate instrs st) with
  | none => exact Or.inr ⟨rfl, rfl⟩
  | some w =>
    refine Or.inl ⟨w,
      (List.perm_insertionSort (rankLE standings) group).mem_iff.mp
        (List.mem_of_find?_eq_some hfind),
      List.find?_some hfind, ?_, rfl, rfl⟩
    exact claimPasses_budget_le _ _ _ _ _ (List.find?_some hfind)

lemma resolveGroup_budget_mono (seasonBudget effectiveDate : Int)
    (instrs : List Instrument) (standings : String → ℚ) (st : ResolveState)
    (group : List WaiverClaim) (team : String)
    (hbids : ∀ c ∈ group, 0 ≤ c.faabBid) :
    (assocGet team (resolveGroup seasonBudget effectiveDate instrs standings
      st group).budgets).getD 0 ≤ (assocGet team st.budgets).getD 0 ∧
    (0 ≤ (assocGet team st.budgets).getD 0 →
      0 ≤ (assocGet team (resolveGroup seasonBudget effectiveDate instrs
        standings st group).budgets).getD 0) := by
  rcases resolveGroup_budgets seasonBudget effectiveDate instrs standings st group
    with ⟨w, hw, _, hle, hbud, _⟩ | ⟨hbud, _⟩
  · rw [hbud]
    have hwb := hbids w hw
    by_cases ht : w.teamId = team
    · subst ht
      rw [assocGet_assocSet_same]
      simp only [Option.getD_some]
      exact ⟨by omega, fun _ => by omega⟩
    · rw [assocGet_assocSet_ne _ _ _ _ ht]
      exact ⟨le_refl _, fun h => h⟩
  · rw [hbud]
    exact ⟨le_refl _, fun h => h⟩

lemma foldl_resolveGroup_budget (seasonBudget effectiveDate : Int)
    (instrs : List Instrument) (standings : String → ℚ)
    (groups : List (String × List WaiverClaim)) (st : ResolveState)
    (team : String)
    (hbids : ∀ g ∈ groups, ∀ c ∈ g.2, 0 ≤ c.faabBid) :
    (assocGet team (groups.foldl (fun st g => resolveGroup seasonBudget
      effectiveDate instrs standings st g.2) st).budgets).getD 0 ≤
      (assocGet team st.budgets).getD 0 ∧
    (0 ≤ (assocGet team st.budgets).getD 0 →
      0 ≤ (assocGet team (groups.foldl (fun st g => resolveGroup seasonBudget
        effectiveDate instrs standings st g.2) st).budgets).getD 0) := by
  induction groups generalizing st with
  | nil => exact ⟨le_refl _, fun h => h⟩
  | cons g rest ih =>
    rw [List.foldl_cons]
    have hstep := resolveGroup_budget_mono seasonBudget effectiveDate instrs
      standings st g.2 team (fun c hc => hbids g (List.mem_cons_self _ _) c hc)
    have hrest := ih (resolveGroup seasonBudget effectiveDate instrs standings
      st g.2) (fun g2 hg2 => hbids g2 (List.mem_cons_of_mem _ hg2))
    exact ⟨le_trans hrest.1 hstep.1, fun h => hrest.2 (hstep.2 h)⟩

lemma assocGet_mem {α : Type} (k : String) (v : α) (m : List (String × α))
    (h : assocGet k m = some v) : (k, v) ∈ m := by
  induction m with
  | nil => cases h
  | cons e rest ih =>
    obtain ⟨k₂, v₂⟩ := e
    by_cases h2 : k₂ = k
    · subst h2
      simp [assocGet] at h
      subst h
      exact List.mem_cons_self _ _
    · simp [assocGet, h2] at h
      exact List.mem_cons_of_mem _ (ih h)

lemma mem_assocSet {α : Type} (g : String × α) (k : String) (v : α)
    (m : List (String × α)) (h : g ∈ assocSet k v m) : g = (k, v) ∨ g ∈ m := by
  induction m with
  | nil =>
    rw [show assocSet k v ([] : List (String × α)) = [(k, v)] from rfl] at h
    rcases List.mem_cons.mp h with h | h
    · exact Or.inl h
    · cases h
  | cons e rest ih =>
    obtain ⟨k₂, v₂⟩ := e
    by_cases h2 : k₂ = k
    · subst h2
      rw [show assocSet k₂ v ((k₂, v₂) :: rest) = (k₂, v) :: rest from by
        simp [assocSet]] at h
      rcases List.mem_cons.mp h with h | h
      · exact Or.inl h
      · exact Or.inr (List.mem_cons_of_mem _ h)
    · rw [show assocSet k v ((k₂, v₂) :: rest) = (k₂, v₂) :: assocSet k v rest
        from by simp [assocSet, h2]] at h
      rcases List.mem_cons.mp h with h | h
      · exact Or.inr (List.mem_cons.mpr (Or.inl h))
      · rcases ih h with h3 | h3
        · exact Or.inl h3
        · exact Or.inr (List.mem_cons_of_mem _ h3)

lemma groupByAdd_forall (P : WaiverClaim → Prop) (l : List WaiverClaim)
    (hP : ∀ c ∈ l, P c) :
    ∀ g ∈ groupByAdd l, ∀ c ∈ g.2, P c := by
  unfold groupByAdd
  suffices haux : ∀ (l2 : List WaiverClaim)
      (acc : List (String × List WaiverClaim)),
      (∀ c ∈ l2, P c) → (∀ g ∈ acc, ∀ c ∈ g.2, P c) →
      ∀ g ∈ l2.foldl (fun acc c =>
        match assocGet c.addSymbol acc with
        | some g => assocSet c.addSymbol (g ++ [c]) acc
        | none => acc ++ [(c.addSymbol, [c])]) acc, ∀ c ∈ g.2, P c by
    exact haux l [] hP (by simp)
  intro l2
  induction l2 with
  | nil =>
    intro acc _ hacc
    simpa using hacc
  | cons c0 rest ih =>
    intro acc hl2 hacc
    rw [List.foldl_cons]
    refine ih _ (fun c hc => hl2 c (List.mem_cons_of_mem _ hc)) ?_
    cases hget : assocGet c0.addSymbol acc with
    | some g0 =>
      intro g hg c hc
      rcases mem_assocSet g _ _ _ hg with hgeq | hgmem
      · subst hgeq
        rcases List.mem_append.mp hc with hcg | hcg
        · exact hacc _ (assocGet_mem _ _ _ hget) c hcg
        · rw [List.mem_singleton.mp hcg]
          exact hl2 c0 (List.mem_cons_self _ _)
      · exact hacc g hgmem c hc
    | none =>
      intro g hg c hc
      rcases List.mem_append.mp hg with hgm | hgm
      · exact hacc g hgm c hc
      · rw [List.mem_singleton.mp hgm] at hc
        rw [List.mem_singleton.mp hc]
        exact hl2 c0 (List.mem_cons_self _ _)

lemma resolveGroup_overbid_lost (seasonBudget effectiveDate : Int)
    (instrs : List Instrument) (standings : String → ℚ) (st : ResolveState)
    (group : List WaiverClaim) (c : WaiverClaim)
    (hinj : ∀ x ∈ group, ∀ y ∈ group, x.id = y.id → x = y)
    (hmem : c ∈ group)
    (hover : (assocGet c.teamId st.budgets).getD 0 < c.faabBid) :
    c.id ∈ (resolveGroup seasonBudget effectiveDate instrs standings st group).lost := by
  have hcfail := claimPasses_overbid seasonBudget effectiveDate instrs st c hover
  unfold resolveGroup
  cases hfind : (List.insertionSort (rankLE standings) group).find?
      (claimPasses seasonBudget effectiveDate instrs st) with
  | none =>
    show c.id ∈ st.lost ++ _
    refine List.mem_append.mpr (Or.inr ?_)
    exact List.mem_map_of_mem _
      ((List.perm_insertionSort (rankLE standings) group).mem_iff.mpr hmem)
  | some w =>
    have hwpass := List.find?_some hfind
    have hwc : w ≠ c := fun hEq => by
      rw [hEq, hcfail] at hwpass
      cases hwpass
    have hwmem : w ∈ group :=
      (List.perm_insertionSort (rankLE standings) group).mem_iff.mp
        (List.mem_of_find?_eq_some hfind)
    have hid : c.id ≠ w.id := fun hEq => hwc (hinj w hwmem c hmem hEq.symm)
    show c.id ∈ st.lost ++ _
    refine List.mem_append.mpr (Or.inr ?_)
    exact List.mem_map_of_mem _ (List.mem_filter.mpr
      ⟨(List.perm_insertionSort (rankLE standings) group).mem_iff.mpr hmem,
        by simpa using hid⟩)

lemma submitSwapChecked_overbid (env : SwapEnv)
    (teamId dropSymbol addSymbol : String) (faabBid : Option Int)
    (submittedAt effectiveDate : Int) (baseId : Nat)
    (holdingSymbols : List String) (owner : List (String × String))
    (hmode : env.ownershipMode = OwnershipMode.UNIQUE)
    (hbid : env.faabBudget < faabBid.getD 0) :
    ∃ e, submitSwapChecked env teamId dropSymbol addSymbol faabBid submittedAt
      effectiveDate baseId holdingSymbols owner = Except.error e := by
  unfold submitSwapChecked
  split_ifs <;> exact ⟨_, rfl⟩

lemma submitSwap_overbid_rejected (swapEnv : SwapEnv)
    (teamId dropSymbolRaw addSymbolRaw : String) (faabBid : Option Int)
    (submittedAt : Int) (baseId : Nat)
    (hmode : swapEnv.ownershipMode = OwnershipMode.UNIQUE)
    (hbid : swapEnv.faabBudget < faabBid.getD 0) :
    ∃ e, submitSwap swapEnv teamId dropSymbolRaw addSymbolRaw faabBid
      submittedAt baseId = Except.error e := by
  by_cases h1 : normalizeSymbol dropSymbolRaw = "" ∨ normalizeSymbol addSymbolRaw = ""
  · exact ⟨_, by unfold submitSwap; rw [if_pos h1]⟩
  by_cases h2 : normalizeSymbol dropSymbolRaw = normalizeSymbol addSymbolRaw
  · exact ⟨_, by unfold submitSwap; rw [if_neg h1, if_pos h2]⟩
  by_cases h3 : swapEnv.marketOpen = true
  · exact ⟨_, by unfold submitSwap; rw [if_neg h1, if_neg h2, if_pos h3]⟩
  by_cases h4 : swapEnv.leagueStatus ≠ LeagueStatus.ACTIVE
  · exact ⟨_, by unfold submitSwap; rw [if_neg h1, if_neg h2, if_neg h3, if_pos h4]⟩
  by_cases h5 : (getRemainingSwaps swapEnv teamId submittedAt).remainingToday < 1
  · refine ⟨"Daily swap limit reached", ?_⟩
    unfold submitSwap
    rw [if_neg h1, if_neg h2, if_neg h3, if_neg h4, if_pos h5]
  by_cases h6 : (getRemainingSwaps swapEnv teamId submittedAt).remainingThisWeek < 1
  · refine ⟨"Weekly swap limit reached", ?_⟩
    unfold submitSwap
    rw [if_neg h1, if_neg h2, if_neg h3, if_neg h4, if_neg h5, if_pos h6]
  have hrw : submitSwap swapEnv teamId dropSymbolRaw addSymbolRaw faabBid
      submittedAt baseId = submitSwapChecked swapEnv teamId
      (normalizeSymbol dropSymbolRaw) (normalizeSymbol addSymbolRaw) faabBid
      submittedAt (getNextEffectiveDate swapEnv.calendar submittedAt) baseId
      (holdingSymbolsFold (sortMoves (swapEnv.moves.filter fun m =>
        m.teamId == teamId &&
        decide (m.effectiveDate ≤ getNextEffectiveDate swapEnv.calendar submittedAt))))
      (ownerFold (sortMoves (swapEnv.moves.filter fun m =>
        decide (m.effectiveDate ≤ getNextEffectiveDate swapEnv.calendar submittedAt)))) := by
    unfold submitSwap
    rw [if_neg h1, if_neg h2, if_neg h3, if_neg h4, if_neg h5, if_neg h6]
  rw [hrw]
  exact submitSwapChecked_overbid swapEnv teamId _ _ faabBid submittedAt _
    baseId _ _ hmode hbid

/-- C5: the FAAB budget never increases and never becomes negative —
`submitSwap` in a unique league rejects any submission whose bid exceeds the
team's remaining budget; in a resolution group the only budget change is the
winner's, whose new budget is its previous budget minus its bid, itself
bounded by that previous budget; a candidate whose bid exceeds its in-pass
budget is marked LOST (and, being no winner, causes no budget change); and
across a whole `processWaiverClaims` run with non-negative bids every
team's budget is non-increasing and stays non-negative. -/
theorem claim_C5_faab_budget (swapEnv : SwapEnv)
    (teamId dropSymbolRaw addSymbolRaw : String) (faabBid : Option Int)
    (submittedAt : Int) (baseId : Nat) (env : WaiverEnv) (date : Int)
    (seasonBudget effectiveDate : Int) (instrs : List Instrument)
    (standings : String → ℚ) (st : ResolveState) (group : List WaiverClaim)
    (c : WaiverClaim) :
    (swapEnv.ownershipMode = OwnershipMode.UNIQUE →
      swapEnv.faabBudget < faabBid.getD 0 →
      ∃ e, submitSwap swapEnv teamId dropSymbolRaw addSymbolRaw faabBid
        submittedAt baseId = Except.error e) ∧
    ((∃ w ∈ group, claimPasses seasonBudget effectiveDate instrs st w = true ∧
        w.faabBid ≤ (assocGet w.teamId st.budgets).getD 0 ∧
        (resolveGroup seasonBudget effectiveDate instrs standings st group).budgets =
          assocSet w.teamId ((assocGet w.teamId st.budgets).getD 0 - w.faabBid)
            st.budgets ∧
        (resolveGroup seasonBudget effectiveDate instrs standings st group).winners =
          st.winners ++ [⟨w.id, w.teamId, w.addSymbol, w.dropSymbol, w.faabBid⟩]) ∨
      ((resolveGroup seasonBudget effectiveDate instrs standings st group).budgets =
          st.budgets ∧
        (resolveGroup seasonBudget effectiveDate instrs standings st group).winners =
          st.winners)) ∧
    ((∀ x ∈ group, ∀ y ∈ group, x.id = y.id → x = y) → c ∈ group →
      (assocGet c.teamId st.budgets).getD 0 < c.faabBid →
      c.id ∈ (resolveGroup seasonBudget effectiveDate instrs standings st group).lost) ∧
    (∀ st2, processWaiverClaims env date = Except.ok st2 →
      (∀ cl ∈ env.claims, 0 ≤ cl.faabBid) →
      ∀ team,
        (assocGet team st2.budgets).getD 0 ≤ (assocGet team env.teams).getD 0 ∧
        (0 ≤ (assocGet team env.teams).getD 0 →
          0 ≤ (assocGet team st2.budgets).getD 0)) := by
  refine ⟨?_, resolveGroup_budgets seasonBudget effectiveDate instrs standings st group,
    fun hinj hmem hover => resolveGroup_overbid_lost seasonBudget effectiveDate
      instrs standings st group c hinj hmem hover, ?_⟩
  · exact submitSwap_overbid_rejected swapEnv teamId dropSymbolRaw
      addSymbolRaw faabBid submittedAt baseId
  · intro st2 hok hbids team
    unfold processWaiverClaims at hok
    by_cases hmode : env.ownershipMode ≠ OwnershipMode.UNIQUE
    · rw [if_pos hmode] at hok
      cases hok
    · rw [if_neg hmode] at hok
      injection hok with hok2
      have hbids2 : ∀ g ∈ groupByAdd (List.insertionSort claimLoadLE
          (env.claims.filter fun cl =>
            cl.status == ClaimStatus.PENDING &&
            cl.effectiveDate == getUtcDayStart date)), ∀ cl ∈ g.2, 0 ≤ cl.faabBid := by
        refine groupByAdd_forall _ _ ?_
        intro cl hcl
        have hmem2 := (List.perm_insertionSort claimLoadLE _).mem_iff.mp hcl
        exact hbids cl (List.mem_filter.mp hmem2).1
      have hfold := foldl_resolveGroup_budget env.budget (getUtcDayStart date)
        env.instruments env.standings
        (groupByAdd (List.insertionSort claimLoadLE (env.claims.filter fun cl =>
          cl.status == ClaimStatus.PENDING &&
          cl.effectiveDate == getUtcDayStart date)))
        ⟨env.teams,
          (buildOwnership (env.teams.map Prod.fst) (sortMoves (env.moves.filter
            fun m => decide (m.effectiveDate ≤ getUtcDayStart date)))).1,
          (buildOwnership (env.teams.map Prod.fst) (sortMoves (env.moves.filter
            fun m => decide (m.effectiveDate ≤ getUtcDayStart date)))).2,
          [], []⟩ team hbids2
      rw [← hok2]
      exact hfold

/-- A unique-ownership league with 100 FAAB remaining, market closed and no
swap activity, used to exercise the overbid rejection at submission. -/
def c5SwapEnv : SwapEnv :=
  ⟨emptyCal, false, LeagueStatus.ACTIVE, OwnershipMode.UNIQUE, 100, 100, 1, 5,
    [], [], []⟩

/-- A unique-ownership waiver environment with one team holding budget 100
and no pending claims or moves. -/
def c5WaiverEnv : WaiverEnv :=
  ⟨OwnershipMode.UNIQUE, 100, [], [("A", 100)], [], [], fun _ => 0⟩

/-- An in-pass resolution state where team B has only 3 FAAB left. -/
def c5State : ResolveState := ⟨[("B", 3)], [], [], [], []⟩

/-- A claim by team B bidding 10, more than its remaining 3. -/
def c5Claim : WaiverClaim := ⟨7, "B", "X", "S", 10, ClaimStatus.PENDING, 0, 0⟩

/-- C5 witness: team A bidding 150 against a remaining budget of 100 is
rejected at submission; team B's claim bidding 10 against an in-pass budget
of 3 ends up LOST; and after a full (empty) waiver run team A's budget has
not increased. -/
theorem claim_C5_witness :
    (∃ e, submitSwap c5SwapEnv "A" "X" "Y" (some 150) 0 1 = Except.error e) ∧
    c5Claim.id ∈ (resolveGroup 100 0 ([] : List Instrument) (fun _ => (0 : ℚ))
      c5State [c5Claim]).lost ∧
    (assocGet "A" ((⟨[("A", 100)], [("A", [])], [], [], []⟩ :
      ResolveState)).budgets).getD 0 ≤ (assocGet "A" c5WaiverEnv.teams).getD 0 := by
  have h := claim_C5_faab_budget c5SwapEnv "A" "X" "Y" (some 150) 0 1
    c5WaiverEnv 0 100 0 ([] : List Instrument) (fun _ => (0 : ℚ)) c5State
    [c5Claim] c5Claim
  refine ⟨h.1 rfl (by decide), ?_, ?_⟩
  · exact h.2.2.1 (by decide) (by decide) (by decide)
  · exact (h.2.2.2 ⟨[("A", 100)], [("A", [])], [], [], []⟩ (by decide)
      (by decide) "A").1

end FantasyTrader
